import Mathlib

/-!
Verification of the secret-provisioning logic of `scripts/deploy_stack.py`
(`create_env_from_template` and `check_env_file`).

Lines of the template and of the generated `.env` file are modelled as
`List Char`, matching Python's treatment of a file as a list of strings that
keep their trailing newline.  Python string primitives used by the script
(`str.replace`, `str.strip`, `str.rstrip('\n')`, `str.split('=', 1)`,
`str.startswith`, `in`) are embedded as executable functions on `List Char`.

Randomness is modelled by an explicit oracle: `secrets.choice` /
`secrets.token_bytes` become functions `Nat → Nat` supplying the random
draws, and the run of `create_env_from_template` is parametrised by an
`Oracle` recording, for every loop iteration, the values produced by the
generator calls made in that iteration (the script rebuilds its
`replacements` / `value_replacements` dictionaries, and hence draws fresh
secrets, on every iteration; the three PostgreSQL passwords are drawn once,
before the loop).
-/

abbrev Line := List Char

/-- Python `c in string.whitespace` for the characters that can occur here
(the six ASCII whitespace characters stripped by `str.strip()`). -/
def pySpace (c : Char) : Bool :=
  c == ' ' || c == '\t' || c == '\n' || c == '\r' || c == '\x0b' || c == '\x0c'

/-- Python `s.lstrip()`. -/
def lstripWS (l : Line) : Line := l.dropWhile pySpace

/-- Python `s.rstrip()`. -/
def rstripWS (l : Line) : Line := ((l.reverse).dropWhile pySpace).reverse

/-- Python `s.strip()`. -/
def pyStrip (l : Line) : Line := rstripWS (lstripWS l)

/-- Python `s.rstrip('\n')`. -/
def rstripNL (l : Line) : Line := ((l.reverse).dropWhile (fun c => c == '\n')).reverse

/-- Python `s.split('=', 1)[0]` (everything before the first `=`). -/
def splitKey (l : Line) : Line := l.takeWhile (fun c => !(c == '='))

/-- Python `s.split('=', 1)[1]` (everything after the first `=`),
meaningful when `=` occurs in `s`. -/
def splitVal (l : Line) : Line := (l.dropWhile (fun c => !(c == '='))).tail

/-- The value of an assignment line with its trailing newline removed,
i.e. `line.split('=', 1)[1].rstrip('\n')` as computed by the script. -/
def lineValue (l : Line) : Line := rstripNL (splitVal l)

/-- Python `pat in s` (substring test). -/
def containsSub (pat : Line) : Line → Bool
  | [] => pat.isEmpty
  | c :: rest => pat.isPrefixOf (c :: rest) || containsSub pat rest

/-- Worker for `replaceAll`: scan the line one character at a time; `skip`
counts characters still to be dropped because they belong to an occurrence
that has already been replaced. -/
def replaceSkip (pat rep : Line) : Line → Nat → Line
  | [], _ => []
  | _ :: rest, Nat.succ k => replaceSkip pat rep rest k
  | c :: rest, 0 =>
    if pat.isPrefixOf (c :: rest) && !pat.isEmpty then
      rep ++ replaceSkip pat rep rest (pat.length - 1)
    else
      c :: replaceSkip pat rep rest 0

/-- Python `s.replace(pat, rep)`: replace every (leftmost, non-overlapping)
occurrence of `pat` in `s` by `rep`.  The `!pat.isEmpty` guard only rules
out the degenerate empty pattern, which the script never uses. -/
def replaceAll (s pat rep : Line) : Line := replaceSkip pat rep s 0

/-! ### The secret generators (`generate_secure_password`,
`generate_secret_key`, `generate_salt`)

`secrets.choice(characters)` is modelled by a draw function `Nat → Nat`
reduced modulo the alphabet size, `secrets.token_hex` by a byte source
`Nat → Nat` reduced modulo 256. -/

/-- Python `string.ascii_letters + string.digits`. -/
def characters : Line :=
  ("abcdefghijklmnopqrstuvwxyzABCDEFGHIJKLMNOPQRSTUVWXYZ0123456789").data

/-- `generate_secure_password(length)`: `length` independent draws from
`characters`. -/
def generate_secure_password (choice : Nat → Nat) (length : Nat) : Line :=
  (List.range length).map (fun i => characters.getD (choice i % characters.length) 'a')

/-- The sixteen lowercase hexadecimal digits. -/
def hexChars : Line := ("0123456789abcdef").data

/-- The two lowercase hex digits of one byte, as produced by
`secrets.token_hex`. -/
def byteHex (b : Nat) : Line :=
  [hexChars.getD (b % 256 / 16) '0', hexChars.getD (b % 256 % 16) '0']

/-- `secrets.token_hex(n)` reading bytes `i`, `i+1`, ... of the byte
source. -/
def tokenHexFrom (bytes : Nat → Nat) (i : Nat) : Nat → Line
  | 0 => []
  | Nat.succ k => byteHex (bytes i) ++ tokenHexFrom bytes (i + 1) k

/-- `secrets.token_hex(nbytes)`. -/
def token_hex (bytes : Nat → Nat) (nbytes : Nat) : Line := tokenHexFrom bytes 0 nbytes

/-- `generate_secret_key(length)` = `secrets.token_hex(length // 2)`. -/
def generate_secret_key (bytes : Nat → Nat) (length : Nat) : Line :=
  token_hex bytes (length / 2)

/-- `generate_salt()` = `secrets.token_hex(16)`. -/
def generate_salt (bytes : Nat → Nat) : Line := token_hex bytes 16

/-- A character of the password alphabet `[A-Za-z0-9]`. -/
def isAlnumChar (c : Char) : Bool := c.isAlpha || c.isDigit

/-- A generated password of length `n`: `n` characters drawn from
`[A-Za-z0-9]`. -/
def isPassword (n : Nat) (l : Line) : Bool := l.length == n && l.all isAlnumChar

/-- A lowercase hexadecimal digit. -/
def isHexLower (c : Char) : Bool := c.isDigit || ('a' ≤ c && c ≤ 'f')

/-- A generated hex key of length `n` (`secretKey` / `salt` output shape). -/
def isHexKey (n : Nat) (l : Line) : Bool := l.length == n && l.all isHexLower

/-! ### The random values consumed by one run of
`create_env_from_template` -/

/-- The secrets generated by one iteration of the line loop: the nine values
of the `replacements` dict (built afresh for every line) and the six values
of the `value_replacements` dict. -/
structure FreshSecrets where
  secure_key : Line
  fl_password : Line
  secure_secret : Line
  secure_salt : Line
  hex64_key : Line
  langfuse_pw : Line
  clickhouse_pw : Line
  minio_pw : Line
  redis_pw : Line
  mysecret_v : Line
  mysalt_v : Line
  miniosecret_v : Line
  myredissecret_v : Line
  clickhouse_v : Line
  postgres_v : Line

/-- The three PostgreSQL passwords, generated once before the loop
(`postgres_passwords` in the script). -/
structure PgPasswords where
  mlflow_pg : Line
  mlflow_pg_auth : Line
  langfuse_pg : Line

/-- All random values drawn by one run: the pre-generated database
passwords, the per-iteration fresh secrets, the password generated when an
absent `MLFLOW_ADMIN_PASSWORD` line is appended, and (per line index) the
password generated when an empty `MLFLOW_ADMIN_PASSWORD` line is
rewritten. -/
structure Oracle where
  pg : PgPasswords
  fresh : Nat → FreshSecrets
  admin_append : Line
  admin_fill : Nat → Line

/-- The shapes the script's generators guarantee for every drawn value. -/
def FreshSecrets.wf (g : FreshSecrets) : Bool :=
  isHexKey 64 g.secure_key && isPassword 20 g.fl_password &&
  isHexKey 64 g.secure_secret && isHexKey 32 g.secure_salt &&
  isHexKey 64 g.hex64_key && isPassword 20 g.langfuse_pw &&
  isPassword 20 g.clickhouse_pw && isPassword 20 g.minio_pw &&
  isPassword 20 g.redis_pw && isHexKey 32 g.mysecret_v &&
  isHexKey 32 g.mysalt_v && isPassword 20 g.miniosecret_v &&
  isPassword 20 g.myredissecret_v && isPassword 20 g.clickhouse_v &&
  isPassword 20 g.postgres_v

def Oracle.WF (o : Oracle) : Prop :=
  isPassword 20 o.pg.mlflow_pg = true ∧
  isPassword 20 o.pg.mlflow_pg_auth = true ∧
  isPassword 20 o.pg.langfuse_pg = true ∧
  (∀ i, (o.fresh i).wf = true) ∧
  isPassword 20 o.admin_append = true ∧
  (∀ i, isPassword 20 (o.admin_fill i) = true)

/-! ### The line-processing pipeline -/

/-- The `replacements` dict of the script, in insertion order. -/
def sentinelList (g : FreshSecrets) : List (Line × Line) :=
  [(("change_me_with_a_secure_key").data, g.secure_key),
   (("change_me_on_first_login").data, g.fl_password),
   (("change_me_with_a_secure_secret").data, g.secure_secret),
   (("change_me_with_a_secure_salt").data, g.secure_salt),
   (("change_me_with_64_char_hex_key_generate_via_openssl_rand_hex_32").data, g.hex64_key),
   (("change_me_langfuse_password").data, g.langfuse_pw),
   (("change_me_clickhouse_password").data, g.clickhouse_pw),
   (("change_me_minio_password").data, g.minio_pw),
   (("change_me_redis_password").data, g.redis_pw)]

/-- The nine sentinel substrings themselves, in the same order. -/
def sentinelNames : List Line :=
  [("change_me_with_a_secure_key").data,
   ("change_me_on_first_login").data,
   ("change_me_with_a_secure_secret").data,
   ("change_me_with_a_secure_salt").data,
   ("change_me_with_64_char_hex_key_generate_via_openssl_rand_hex_32").data,
   ("change_me_langfuse_password").data,
   ("change_me_clickhouse_password").data,
   ("change_me_minio_password").data,
   ("change_me_redis_password").data]

/-- `for placeholder, secure_value in replacements.items():
line = line.replace(placeholder, secure_value)` -/
def applySentinels (g : FreshSecrets) (l : Line) : Line :=
  (sentinelList g).foldl (fun acc p => replaceAll acc p.1 p.2) l

/-- The `postgres_passwords` dict, in insertion order. -/
def pgList (pg : PgPasswords) : List (Line × Line) :=
  [(("MLFLOW_POSTGRES_PASSWORD").data, pg.mlflow_pg),
   (("MLFLOW_POSTGRES_AUTH_PASSWORD").data, pg.mlflow_pg_auth),
   (("LANGFUSE_POSTGRES_PASSWORD").data, pg.langfuse_pg)]

/-- The three database-password key names. -/
def pgKeyNames : List Line :=
  [("MLFLOW_POSTGRES_PASSWORD").data,
   ("MLFLOW_POSTGRES_AUTH_PASSWORD").data,
   ("LANGFUSE_POSTGRES_PASSWORD").data]

/-- The loop `for db_password_key, new_password in postgres_passwords.items():
if line.strip().startswith(f'{db_password_key}='): ... break`. -/
def findPg (pg : PgPasswords) (l : Line) : Option Line :=
  ((pgList pg).find? (fun p => (p.1 ++ [('=' : Char)]).isPrefixOf (pyStrip l))).map
    (fun p => p.2)

/-- The `value_replacements` dict of the script, in insertion order. -/
def bareList (g : FreshSecrets) : List (Line × Line) :=
  [(("mysecret").data, g.mysecret_v),
   (("mysalt").data, g.mysalt_v),
   (("miniosecret").data, g.miniosecret_v),
   (("myredissecret").data, g.myredissecret_v),
   (("clickhouse").data, g.clickhouse_v),
   (("postgres").data, g.postgres_v)]

/-- The six bare-default tokens themselves, in the same order. -/
def bareNames : List Line :=
  [("mysecret").data, ("mysalt").data, ("miniosecret").data,
   ("myredissecret").data, ("clickhouse").data, ("postgres").data]

/-- `for default_val, secure_val in value_replacements.items():
if value.strip() == default_val: value = secure_val; break
elif value.strip() == f'-{default_val}': value = f'-{secure_val}'; break`. -/
def applyBare : List (Line × Line) → Line → Line
  | [], v => v
  | (tok, sec) :: rest, v =>
    if pyStrip v == tok then sec
    else if pyStrip v == '-' :: tok then '-' :: sec
    else applyBare rest v

/-- One iteration of the line loop of `create_env_from_template`:
sentinel replacement, then the database-password branch (with its
`continue`), then the bare-default branch and the
`line = f"{key}={value}\n"` rebuild. -/
def processLine (pg : PgPasswords) (g : FreshSecrets) (line : Line) : Line :=
  let l := applySentinels g line
  if l.contains '=' && !((("#").data).isPrefixOf (pyStrip l)) then
    match findPg pg l with
    | some pw => splitKey l ++ '=' :: (pw ++ ['\n'])
    | none =>
      let v0 := rstripNL (splitVal l)
      let v := if containsSub (("$\x7b").data) v0 then v0 else applyBare (bareList g) v0
      splitKey l ++ '=' :: (v ++ ['\n'])
  else l

/-- The line loop, threading the iteration index used to address the
per-iteration fresh secrets. -/
def processFrom (pg : PgPasswords) (fresh : Nat → FreshSecrets) (i : Nat) :
    List Line → List Line
  | [] => []
  | l :: ls => processLine pg (fresh i) l :: processFrom pg fresh (i + 1) ls

def userKey : Line := ("MLFLOW_ADMIN_USERNAME=").data
def passKey : Line := ("MLFLOW_ADMIN_PASSWORD=").data

/-- The username half of the admin reconciliation: rewrite an empty
`MLFLOW_ADMIN_USERNAME=` line to `admin`. -/
def fixUserLine (l : Line) : Line :=
  if userKey.isPrefixOf l then
    if pyStrip (splitVal l) == [] then ("MLFLOW_ADMIN_USERNAME=admin\n").data else l
  else l

/-- The password half: rewrite an empty `MLFLOW_ADMIN_PASSWORD=` line to a
freshly generated password (one generator call per rewritten line,
addressed here by line index). -/
def fixPassLine (fill : Nat → Line) (i : Nat) (l : Line) : Line :=
  if passKey.isPrefixOf l then
    if pyStrip (splitVal l) == [] then passKey ++ fill i ++ ['\n'] else l
  else l

def fixPassFrom (fill : Nat → Line) (i : Nat) : List Line → List Line
  | [] => []
  | l :: ls => fixPassLine fill i l :: fixPassFrom fill (i + 1) ls

/-- The admin-credentials reconciliation block of
`create_env_from_template` (lines 158-195 of the script). -/
def ensureAdmin (appendPw : Line) (fill : Nat → Line) (ls : List Line) : List Line :=
  let hasUser := ls.any (fun l => userKey.isPrefixOf l)
  let hasPass := ls.any (fun l => passKey.isPrefixOf l)
  let ls1 := if hasUser then ls.map fixUserLine
             else ls ++ [("MLFLOW_ADMIN_USERNAME=admin\n").data]
  if hasPass then fixPassFrom fill 0 ls1
  else ls1 ++ [passKey ++ appendPw ++ ['\n']]

/-- `create_env_from_template`, from the template's line list to the line
list written to `.env`. -/
def create_env_from_template (o : Oracle) (template : List Line) : List Line :=
  ensureAdmin o.admin_append o.admin_fill (processFrom o.pg o.fresh 0 template)

/-- The file-level behaviour of `create_env_from_template`: `none` models a
missing file; the function fails (and writes nothing) when `.env.example`
is missing, and otherwise writes the fully computed line list in one step.
Returns (success flag, resulting state of `.env`). -/
def runCreateEnv (o : Oracle) (template envFile : Option (List Line)) :
    Bool × Option (List Line) :=
  match template with
  | none => (false, envFile)
  | some t => (true, some (create_env_from_template o t))

/-- One line of the `check_env_file` scan: an assignment line whose value
(`parts[1].strip()`) contains `change_me` or `CHANGEME`. -/
def hasStaleMarker (l : Line) : Bool :=
  l.contains '=' && !((("#").data).isPrefixOf (pyStrip l)) &&
    (containsSub (("change_me").data) (pyStrip (splitVal l)) ||
     containsSub (("CHANGEME").data) (pyStrip (splitVal l)))

/-- `check_env_file`: regenerate when `.env` is missing or still contains a
placeholder marker, otherwise leave it untouched. -/
def check_env_file (o : Oracle) (template envFile : Option (List Line)) :
    Bool × Option (List Line) :=
  match envFile with
  | none => runCreateEnv o template none
  | some ls =>
    if ls.any hasStaleMarker then runCreateEnv o template (some ls)
    else (true, some ls)

/-! ### Basic facts about the embedded string primitives -/

theorem containsSub_iff {pat l : Line} : containsSub pat l = true ↔ pat <:+: l := by
  induction l with
  | nil => simp [containsSub]
  | cons c rest ih => simp [containsSub, ih, List.infix_cons_iff]

theorem replaceSkip_absent {pat rep : Line} {s : Line} (h : ¬ pat <:+: s) :
    replaceSkip pat rep s 0 = s := by
  induction s with
  | nil => rfl
  | cons c rest ih =>
    rw [List.infix_cons_iff] at h
    have h1 : ¬ pat <+: c :: rest := fun hc => h (Or.inl hc)
    have h2 : ¬ pat <:+: rest := fun hc => h (Or.inr hc)
    have hneg : ¬ ((pat.isPrefixOf (c :: rest) && !pat.isEmpty) = true) := by
      simp only [Bool.and_eq_true, List.isPrefixOf_iff_prefix]
      intro hc
      exact h1 hc.1
    simp only [replaceSkip, if_neg hneg, ih h2]

theorem replaceAll_absent {pat rep : Line} {s : Line} (h : ¬ pat <:+: s) :
    replaceAll s pat rep = s := replaceSkip_absent h

theorem absent_of_mem_not_mem {a : Char} {pat s : Line} (ha : a ∈ pat) (hs : a ∉ s) :
    ¬ pat <:+: s := fun h => hs (h.sublist.subset ha)

theorem replaceSkip_append_left {pat rep : Line} {a : Char} {rest : Line}
    (hhead : pat.head? = some a) :
    ∀ {pre : Line}, a ∉ pre →
      replaceSkip pat rep (pre ++ rest) 0 = pre ++ replaceSkip pat rep rest 0 := by
  obtain ⟨p', rfl⟩ : ∃ p', pat = a :: p' := by
    cases pat with
    | nil => simp at hhead
    | cons x xs =>
      simp only [List.head?_cons, Option.some.injEq] at hhead
      exact ⟨xs, by rw [hhead]⟩
  intro pre
  induction pre with
  | nil => intro _; rfl
  | cons b pre' ih =>
    intro hmem
    have hb : ¬ (a = b) := fun he => hmem (he ▸ List.mem_cons_self b pre')
    have hmem' : a ∉ pre' := fun hc => hmem (List.mem_cons_of_mem b hc)
    have hneg : ¬ (((a :: p').isPrefixOf (b :: (pre' ++ rest)) && !(a :: p').isEmpty) = true) := by
      simp [List.isPrefixOf, hb]
    simp only [List.cons_append, replaceSkip, List.append_eq]
    rw [if_neg hneg, ih hmem']

theorem replaceSkip_skip {pat rep : Line} (a t : Line) :
    replaceSkip pat rep (a ++ t) a.length = replaceSkip pat rep t 0 := by
  induction a with
  | nil => rfl
  | cons c a' ih => simpa [replaceSkip] using ih

theorem replaceSkip_match_head {pat rep : Line} (t : Line) (hne : pat ≠ []) :
    replaceSkip pat rep (pat ++ t) 0 = rep ++ replaceSkip pat rep t 0 := by
  cases pat with
  | nil => exact absurd rfl hne
  | cons c p' =>
    have hpos : ((c :: p').isPrefixOf ((c :: p') ++ t) && !(c :: p').isEmpty) = true := by
      simp [List.isPrefixOf_iff_prefix]
    rw [List.cons_append]
    rw [show ((c :: p') ++ t = c :: (p' ++ t)) from rfl] at hpos
    simp only [replaceSkip, if_pos hpos]
    congr 1
    have hl : (c :: p').length - 1 = p'.length := by simp
    rw [hl, replaceSkip_skip]

/-- `s.replace(pat, rep)` on a string of the shape `pre ++ pat ++ t` where
`pat`'s first character does not occur in `pre`: the occurrence is replaced
in place and scanning continues after it. -/
theorem replaceAll_region {pat rep : Line} {a : Char} {pre t : Line}
    (hhead : pat.head? = some a) (hpre : a ∉ pre) :
    replaceAll (pre ++ pat ++ t) pat rep = pre ++ rep ++ replaceAll t pat rep := by
  have hne : pat ≠ [] := by cases pat <;> simp_all
  unfold replaceAll
  rw [List.append_assoc, replaceSkip_append_left hhead hpre, replaceSkip_match_head t hne,
    List.append_assoc]

theorem dropWhile_append_of_all {p : Char → Bool} {xs l : Line}
    (h : ∀ x ∈ xs, p x = true) : (xs ++ l).dropWhile p = l.dropWhile p := by
  induction xs with
  | nil => rfl
  | cons c xs' ih =>
    have hc : p c = true := h c (List.mem_cons_self c xs')
    simp only [List.cons_append, List.dropWhile_cons, if_pos hc]
    exact ih (fun x hx => h x (List.mem_cons_of_mem c hx))

theorem dropWhile_append_stop {p : Char → Bool} {xs ys : Line} {y : Char}
    (hy : p y = false) : (xs ++ y :: ys).dropWhile p = xs.dropWhile p ++ y :: ys := by
  induction xs with
  | nil => simp [List.dropWhile_cons, hy]
  | cons c xs' ih =>
    by_cases hc : p c = true
    · simp only [List.cons_append, List.dropWhile_cons, if_pos hc, ih]
    · have hc' : p c = false := by simpa using hc
      simp [List.dropWhile_cons, hc']

theorem rstripWS_append_stop {a b : Line} {c : Char} (hc : pySpace c = false) :
    rstripWS (a ++ c :: b) = a ++ c :: rstripWS b := by
  unfold rstripWS
  rw [List.reverse_append, List.reverse_cons, List.append_assoc, List.singleton_append,
    dropWhile_append_stop hc, List.reverse_append]
  simp

theorem rstripWS_prefix_self (l : Line) : rstripWS l <+: l := by
  have h1 : l.reverse.dropWhile pySpace <:+ l.reverse := List.dropWhile_suffix _
  have h2 := List.reverse_prefix.mpr h1
  simpa [rstripWS] using h2

theorem mem_dropWhile_of_mem {p : Char → Bool} {c : Char} {l : Line}
    (hc : p c = false) (hm : c ∈ l) : c ∈ l.dropWhile p := by
  induction l with
  | nil => simp at hm
  | cons b l' ih =>
    by_cases hb : p b = true
    · rw [List.dropWhile_cons, if_pos hb]
      rcases List.mem_cons.mp hm with he | hm'
      · rw [he] at hc; rw [hb] at hc; simp at hc
      · exact ih hm'
    · rw [List.dropWhile_cons, if_neg hb]; exact hm

theorem mem_pyStrip_of_mem {c : Char} {l : Line} (hc : pySpace c = false) (hm : c ∈ l) :
    c ∈ pyStrip l := by
  have h1 : c ∈ l.dropWhile pySpace := mem_dropWhile_of_mem hc hm
  have h2 : c ∈ (l.dropWhile pySpace).reverse := List.mem_reverse.mpr h1
  have h3 := mem_dropWhile_of_mem hc h2
  simpa [pyStrip, lstripWS, rstripWS] using List.mem_reverse.mpr h3

theorem pyStrip_ne_nil_of_mem {c : Char} {l : Line} (hc : pySpace c = false) (hm : c ∈ l) :
    pyStrip l ≠ [] := by
  intro he
  have := mem_pyStrip_of_mem hc hm
  rw [he] at this
  simp at this

theorem dropWhile_eq_self_of_head {p : Char → Bool} {l : Line}
    (h : ∀ c ∈ l, p c = false) : l.dropWhile p = l := by
  cases l with
  | nil => rfl
  | cons c l' =>
    rw [List.dropWhile_cons, if_neg]
    simp [h c (List.mem_cons_self c l')]

theorem rstripWS_eq_self {l : Line} (h : ∀ c ∈ l, pySpace c = false) : rstripWS l = l := by
  unfold rstripWS
  rw [dropWhile_eq_self_of_head (fun c hc => h c (List.mem_reverse.mp hc)),
    List.reverse_reverse]

theorem pyStrip_eq_self {l : Line} (h : ∀ c ∈ l, pySpace c = false) : pyStrip l = l := by
  unfold pyStrip lstripWS
  rw [dropWhile_eq_self_of_head h, rstripWS_eq_self h]

theorem rstripNL_append_newline {v : Line} (h : ∀ c ∈ v, (c == '\n') = false) :
    rstripNL (v ++ ['\n']) = v := by
  unfold rstripNL
  rw [List.reverse_append]
  simp only [List.reverse_cons, List.reverse_nil, List.nil_append, List.singleton_append]
  rw [List.dropWhile_cons, if_pos (by simp)]
  rw [dropWhile_eq_self_of_head (fun c hc => h c (List.mem_reverse.mp hc)),
    List.reverse_reverse]

theorem splitKey_splitVal {l : Line} (h : '=' ∈ l) :
    splitKey l ++ '=' :: splitVal l = l := by
  induction l with
  | nil => simp at h
  | cons c l' ih =>
    by_cases hc : c = '='
    · subst hc
      simp [splitKey, splitVal, List.takeWhile_cons, List.dropWhile_cons]
    · have h' : '=' ∈ l' := by
        rcases List.mem_cons.mp h with h1 | h1
        · exact absurd h1.symm hc
        · exact h1
      have hbc : (c == '=') = false := by simp [hc]
      simp only [splitKey, splitVal, List.takeWhile_cons, List.dropWhile_cons, hbc,
        Bool.not_false, if_pos, List.cons_append]
      exact congrArg (c :: ·) (ih h')

theorem splitKey_append {a b : Line} (ha : ∀ c ∈ a, (c == '=') = false) :
    splitKey (a ++ '=' :: b) = a := by
  unfold splitKey
  induction a with
  | nil => simp [List.takeWhile_cons]
  | cons c a' ih =>
    have hc := ha c (List.mem_cons_self c a')
    simp only [List.cons_append, List.takeWhile_cons, hc, Bool.not_false, if_pos]
    exact congrArg (c :: ·) (ih (fun x hx => ha x (List.mem_cons_of_mem c hx)))

theorem splitVal_append {a b : Line} (ha : ∀ c ∈ a, (c == '=') = false) :
    splitVal (a ++ '=' :: b) = b := by
  unfold splitVal
  rw [dropWhile_append_of_all (by intro x hx; simp [ha x hx])]
  rw [List.dropWhile_cons, if_neg (by simp)]
  rfl

/-! ### Facts about the pipeline stages -/

theorem foldl_replaceAll_id {l : Line} :
    ∀ (ps : List (Line × Line)), (∀ p ∈ ps, ¬ p.1 <:+: l) →
      ps.foldl (fun acc p => replaceAll acc p.1 p.2) l = l := by
  intro ps
  induction ps with
  | nil => intro _; rfl
  | cons q ps' ih =>
    intro h
    simp only [List.foldl_cons]
    rw [replaceAll_absent (h q (List.mem_cons_self q ps'))]
    exact ih (fun p hp => h p (List.mem_cons_of_mem q hp))

theorem sentinelList_fst {g : FreshSecrets} {p : Line × Line}
    (hp : p ∈ sentinelList g) : p.1 ∈ sentinelNames := by
  simp only [sentinelList, List.mem_cons, List.not_mem_nil, or_false] at hp
  rcases hp with rfl | rfl | rfl | rfl | rfl | rfl | rfl | rfl | rfl <;> simp [sentinelNames]

/-- When none of the nine sentinel substrings occurs in a line, the whole
`replacements` pass leaves the line unchanged. -/
theorem applySentinels_of_no_sentinel {g : FreshSecrets} {l : Line}
    (h : ∀ pat ∈ sentinelNames, ¬ pat <:+: l) : applySentinels g l = l :=
  foldl_replaceAll_id _ (fun p hp => h p.1 (sentinelList_fst hp))

theorem mem_takeWhile {p : Char → Bool} {c : Char} :
    ∀ {l : Line}, c ∈ l.takeWhile p → p c = true := by
  intro l
  induction l with
  | nil => intro h; simp at h
  | cons b l' ih =>
    intro h
    rw [List.takeWhile_cons] at h
    by_cases hb : p b = true
    · rw [if_pos hb] at h
      rcases List.mem_cons.mp h with rfl | h'
      · exact hb
      · exact ih h'
    · rw [if_neg hb] at h
      simp at h

theorem splitKey_no_eq {l : Line} : ∀ c ∈ splitKey l, (c == '=') = false := by
  intro c hc
  have := mem_takeWhile (p := fun c => !(c == '=')) hc
  simpa using this

theorem contains_eq_of_mem {l : Line} (h : '=' ∈ l) : l.contains '=' = true :=
  List.elem_iff.mpr h

theorem findPg_eq_none {pg : PgPasswords} {l : Line}
    (h : ∀ K ∈ pgKeyNames, ¬ (K ++ [('=' : Char)]) <+: pyStrip l) : findPg pg l = none := by
  have e1 : ((("MLFLOW_POSTGRES_PASSWORD").data ++ [('=' : Char)]).isPrefixOf (pyStrip l))
      = false :=
    Bool.eq_false_iff.mpr
      (fun hc => h _ (by simp [pgKeyNames]) (List.isPrefixOf_iff_prefix.mp hc))
  have e2 : ((("MLFLOW_POSTGRES_AUTH_PASSWORD").data ++ [('=' : Char)]).isPrefixOf
      (pyStrip l)) = false :=
    Bool.eq_false_iff.mpr
      (fun hc => h _ (by simp [pgKeyNames]) (List.isPrefixOf_iff_prefix.mp hc))
  have e3 : ((("LANGFUSE_POSTGRES_PASSWORD").data ++ [('=' : Char)]).isPrefixOf
      (pyStrip l)) = false :=
    Bool.eq_false_iff.mpr
      (fun hc => h _ (by simp [pgKeyNames]) (List.isPrefixOf_iff_prefix.mp hc))
  simp only [findPg, pgList, List.find?_cons, e1, e2, e3, List.find?_nil, Option.map_none']

theorem applyBare_no_match {v : Line} :
    ∀ (ps : List (Line × Line)),
      (∀ p ∈ ps, pyStrip v ≠ p.1 ∧ pyStrip v ≠ '-' :: p.1) → applyBare ps v = v := by
  intro ps
  induction ps with
  | nil => intro _; rfl
  | cons q ps' ih =>
    intro h
    obtain ⟨h1, h2⟩ := h q (List.mem_cons_self q ps')
    obtain ⟨tok, sec⟩ := q
    simp only [applyBare]
    rw [if_neg (by simpa using h1), if_neg (by simpa using h2)]
    exact ih (fun p hp => h p (List.mem_cons_of_mem (tok, sec) hp))

theorem processFrom_getElem {pg : PgPasswords} {g : Nat → FreshSecrets} :
    ∀ {ls : List Line} {k i : Nat},
      (processFrom pg g k ls)[i]? = (ls[i]?).map (processLine pg (g (k + i))) := by
  intro ls
  induction ls with
  | nil => intro k i; simp [processFrom]
  | cons l ls' ih =>
    intro k i
    cases i with
    | zero => simp [processFrom]
    | succ j =>
      have hk : k + 1 + j = k + (j + 1) := by omega
      simp only [processFrom, List.getElem?_cons_succ, ih, hk]

theorem fixPassFrom_getElem {f : Nat → Line} :
    ∀ {ls : List Line} {k i : Nat},
      (fixPassFrom f k ls)[i]? = (ls[i]?).map (fixPassLine f (k + i)) := by
  intro ls
  induction ls with
  | nil => intro k i; simp [fixPassFrom]
  | cons l ls' ih =>
    intro k i
    cases i with
    | zero => simp [fixPassFrom]
    | succ j =>
      have hk : k + 1 + j = k + (j + 1) := by omega
      simp only [fixPassFrom, List.getElem?_cons_succ, ih, hk]

theorem processFrom_length {pg : PgPasswords} {g : Nat → FreshSecrets} :
    ∀ {ls : List Line} {k : Nat}, (processFrom pg g k ls).length = ls.length := by
  intro ls
  induction ls with
  | nil => intro k; rfl
  | cons l ls' ih => intro k; simp [processFrom, ih]

theorem fixPassFrom_length {f : Nat → Line} :
    ∀ {ls : List Line} {k : Nat}, (fixPassFrom f k ls).length = ls.length := by
  intro ls
  induction ls with
  | nil => intro k; rfl
  | cons l ls' ih => intro k; simp [fixPassFrom, ih]

theorem fixUserLine_eq_self {l : Line}
    (hu : userKey.isPrefixOf l = true → pyStrip (splitVal l) ≠ []) : fixUserLine l = l := by
  unfold fixUserLine
  by_cases h : userKey.isPrefixOf l = true
  · rw [if_pos h, if_neg]
    simpa using hu h
  · rw [if_neg h]

theorem fixPassLine_eq_self {f : Nat → Line} {i : Nat} {l : Line}
    (hp : passKey.isPrefixOf l = true → pyStrip (splitVal l) ≠ []) :
    fixPassLine f i l = l := by
  unfold fixPassLine
  by_cases h : passKey.isPrefixOf l = true
  · rw [if_pos h, if_neg]
    simpa using hp h
  · rw [if_neg h]

/-- The admin reconciliation never touches a line whose value is non-empty
(for the two admin keys), and in particular keeps every line at its
index. -/
theorem ensureAdmin_getElem {a : Line} {f : Nat → Line} {ls : List Line} {i : Nat} {l : Line}
    (h : ls[i]? = some l)
    (hu : userKey.isPrefixOf l = true → pyStrip (splitVal l) ≠ [])
    (hp : passKey.isPrefixOf l = true → pyStrip (splitVal l) ≠ []) :
    (ensureAdmin a f ls)[i]? = some l := by
  have hi : i < ls.length := (List.getElem?_eq_some.mp h).1
  simp only [ensureAdmin]
  by_cases hU : ls.any (fun l => userKey.isPrefixOf l) = true
  · by_cases hP : ls.any (fun l => passKey.isPrefixOf l) = true
    · rw [if_pos hU, if_pos hP, fixPassFrom_getElem]
      simp [h, fixUserLine_eq_self hu, fixPassLine_eq_self hp]
    · rw [if_pos hU, if_neg hP, List.getElem?_append_left (by simpa using hi)]
      simp [h, fixUserLine_eq_self hu]
  · by_cases hP : ls.any (fun l => passKey.isPrefixOf l) = true
    · rw [if_neg hU, if_pos hP, fixPassFrom_getElem, List.getElem?_append_left hi, h]
      simp [fixPassLine_eq_self hp]
    · rw [if_neg hU, if_neg hP,
        List.getElem?_append_left (by simp; omega), List.getElem?_append_left hi, h]

/-! ### Character classes and generator output shapes -/

theorem pySpace_cases {c : Char} (h : pySpace c = true) :
    c = ' ' ∨ c = '\t' ∨ c = '\n' ∨ c = '\r' ∨ c = '\x0b' ∨ c = '\x0c' := by
  unfold pySpace at h
  simp only [Bool.or_eq_true, beq_iff_eq] at h
  tauto

theorem alnum_not_space {c : Char} (h : isAlnumChar c = true) : pySpace c = false := by
  by_contra hc
  rcases pySpace_cases (by simpa using hc) with rfl | rfl | rfl | rfl | rfl | rfl <;>
    exact absurd h (by decide)

theorem hexLower_not_space {c : Char} (h : isHexLower c = true) : pySpace c = false := by
  by_contra hc
  rcases pySpace_cases (by simpa using hc) with rfl | rfl | rfl | rfl | rfl | rfl <;>
    exact absurd h (by decide)

theorem alnum_ne_newline {c : Char} (h : isAlnumChar c = true) : (c == '\n') = false := by
  by_contra hc
  have he : c = '\n' := by simpa using hc
  subst he
  exact absurd h (by decide)

theorem hexLower_ne_newline {c : Char} (h : isHexLower c = true) : (c == '\n') = false := by
  by_contra hc
  have he : c = '\n' := by simpa using hc
  subst he
  exact absurd h (by decide)

theorem alnum_not_mem {c : Char} {l : Line} (hl : l.all isAlnumChar = true)
    (hc : isAlnumChar c = false) : c ∉ l := by
  intro hm
  have := List.all_eq_true.mp hl c hm
  rw [this] at hc
  simp at hc

theorem hexLower_not_mem {c : Char} {l : Line} (hl : l.all isHexLower = true)
    (hc : isHexLower c = false) : c ∉ l := by
  intro hm
  have := List.all_eq_true.mp hl c hm
  rw [this] at hc
  simp at hc

theorem ne_of_length_ne {a b : Line} (h : a.length ≠ b.length) : a ≠ b :=
  fun he => h (he ▸ rfl)

theorem generate_secure_password_wf (choice : Nat → Nat) (n : Nat) :
    isPassword n (generate_secure_password choice n) = true := by
  unfold isPassword generate_secure_password
  rw [Bool.and_eq_true]
  constructor
  · simp
  · rw [List.all_eq_true]
    intro c hc
    rw [List.mem_map] at hc
    obtain ⟨i, _, rfl⟩ := hc
    have hlt : choice i % characters.length < characters.length :=
      Nat.mod_lt _ (by decide)
    rw [List.getD_eq_getElem _ _ hlt]
    exact List.all_eq_true.mp (by decide : characters.all isAlnumChar = true) _
      (List.getElem_mem hlt)

theorem byteHex_hex {b : Nat} : ∀ c ∈ byteHex b, isHexLower c = true := by
  intro c hc
  unfold byteHex at hc
  have h1 : b % 256 / 16 < hexChars.length := by
    have : b % 256 < 256 := Nat.mod_lt _ (by omega)
    have : b % 256 / 16 < 16 := Nat.div_lt_of_lt_mul (by omega)
    simpa [hexChars]
  have h2 : b % 256 % 16 < hexChars.length := by
    have : b % 256 % 16 < 16 := Nat.mod_lt _ (by omega)
    simpa [hexChars]
  rcases List.mem_cons.mp hc with rfl | hc'
  · rw [List.getD_eq_getElem _ _ h1]
    exact List.all_eq_true.mp (by decide : hexChars.all isHexLower = true) _
      (List.getElem_mem h1)
  · rcases List.mem_cons.mp hc' with rfl | hc''
    · rw [List.getD_eq_getElem _ _ h2]
      exact List.all_eq_true.mp (by decide : hexChars.all isHexLower = true) _
        (List.getElem_mem h2)
    · simp at hc''

theorem tokenHexFrom_length {bytes : Nat → Nat} :
    ∀ (n i : Nat), (tokenHexFrom bytes i n).length = 2 * n := by
  intro n
  induction n with
  | zero => intro i; rfl
  | succ k ih =>
    intro i
    simp only [tokenHexFrom, List.length_append, ih]
    simp [byteHex]
    omega

theorem tokenHexFrom_hex {bytes : Nat → Nat} :
    ∀ (n i : Nat), (tokenHexFrom bytes i n).all isHexLower = true := by
  intro n
  induction n with
  | zero => intro i; rfl
  | succ k ih =>
    intro i
    rw [List.all_eq_true]
    intro c hc
    rcases List.mem_append.mp hc with h | h
    · exact byteHex_hex c h
    · exact List.all_eq_true.mp (ih (i + 1)) c h

theorem token_hex_wf (bytes : Nat → Nat) (n : Nat) :
    isHexKey (2 * n) (token_hex bytes n) = true := by
  unfold isHexKey token_hex
  rw [Bool.and_eq_true]
  exact ⟨by simp [tokenHexFrom_length], tokenHexFrom_hex n 0⟩

theorem generate_secret_key_64_wf (bytes : Nat → Nat) :
    isHexKey 64 (generate_secret_key bytes 64) = true := token_hex_wf bytes 32

theorem generate_secret_key_32_wf (bytes : Nat → Nat) :
    isHexKey 32 (generate_secret_key bytes 32) = true := token_hex_wf bytes 16

theorem generate_salt_wf (bytes : Nat → Nat) :
    isHexKey 32 (generate_salt bytes) = true := token_hex_wf bytes 16

/-! ### A concrete run of the generators, for witnesses and
counterexamples -/

def mkFresh (i : Nat) : FreshSecrets :=
  { secure_key := generate_secret_key (fun k => i + k) 64
    fl_password := generate_secure_password (fun k => i + k) 20
    secure_secret := generate_secret_key (fun k => i + k + 1) 64
    secure_salt := generate_salt (fun k => i + k + 2)
    hex64_key := generate_secret_key (fun k => i + k + 3) 64
    langfuse_pw := generate_secure_password (fun k => i + k + 1) 20
    clickhouse_pw := generate_secure_password (fun k => i + k + 2) 20
    minio_pw := generate_secure_password (fun k => i + k + 3) 20
    redis_pw := generate_secure_password (fun k => i + k + 4) 20
    mysecret_v := generate_secret_key (fun k => i + k + 4) 32
    mysalt_v := generate_salt (fun k => i + k + 5)
    miniosecret_v := generate_secure_password (fun k => i + k + 5) 20
    myredissecret_v := generate_secure_password (fun k => i + k + 6) 20
    clickhouse_v := generate_secure_password (fun k => i + k + 7) 20
    postgres_v := generate_secure_password (fun k => i + k + 8) 20 }

theorem mkFresh_wf (i : Nat) : (mkFresh i).wf = true := by
  unfold FreshSecrets.wf mkFresh
  simp only [Bool.and_eq_true]
  exact ⟨⟨⟨⟨⟨⟨⟨⟨⟨⟨⟨⟨⟨⟨generate_secret_key_64_wf _, generate_secure_password_wf _ _⟩,
    generate_secret_key_64_wf _⟩, generate_salt_wf _⟩, generate_secret_key_64_wf _⟩,
    generate_secure_password_wf _ _⟩, generate_secure_password_wf _ _⟩,
    generate_secure_password_wf _ _⟩, generate_secure_password_wf _ _⟩,
    generate_secret_key_32_wf _⟩, generate_salt_wf _⟩, generate_secure_password_wf _ _⟩,
    generate_secure_password_wf _ _⟩, generate_secure_password_wf _ _⟩,
    generate_secure_password_wf _ _⟩

def oracle0 : Oracle :=
  { pg := { mlflow_pg := generate_secure_password (fun k => 15 + k) 20
            mlflow_pg_auth := generate_secure_password (fun k => 16 + k) 20
            langfuse_pg := generate_secure_password (fun k => 17 + k) 20 }
    fresh := mkFresh
    admin_append := generate_secure_password (fun k => 30 + k) 20
    admin_fill := fun i => generate_secure_password (fun k => 40 + i + k) 20 }

theorem oracle0_WF : oracle0.WF :=
  ⟨generate_secure_password_wf _ _, generate_secure_password_wf _ _,
   generate_secure_password_wf _ _, mkFresh_wf,
   generate_secure_password_wf _ _, fun _ => generate_secure_password_wf _ _⟩

/-! ### Normal form of an assignment line through the pipeline -/

theorem foldl_replaceAll_pre {pre : Line} (hpre : ('c' : Char) ∉ pre) :
    ∀ (ps : List (Line × Line)), (∀ p ∈ ps, p.1.head? = some 'c') →
      ∀ rest, ps.foldl (fun acc p => replaceAll acc p.1 p.2) (pre ++ rest)
        = pre ++ ps.foldl (fun acc p => replaceAll acc p.1 p.2) rest := by
  intro ps
  induction ps with
  | nil => intro _ rest; rfl
  | cons q ps' ih =>
    intro h rest
    simp only [List.foldl_cons]
    rw [show replaceAll (pre ++ rest) q.1 q.2 = pre ++ replaceAll rest q.1 q.2 from
      replaceSkip_append_left (h q (List.mem_cons_self q ps')) hpre]
    exact ih (fun p hp => h p (List.mem_cons_of_mem q hp)) _

theorem sentinel_heads {g : FreshSecrets} :
    ∀ p ∈ sentinelList g, p.1.head? = some 'c' := by
  intro p hp
  simp only [sentinelList, List.mem_cons, List.not_mem_nil, or_false] at hp
  rcases hp with rfl | rfl | rfl | rfl | rfl | rfl | rfl | rfl | rfl <;> rfl

/-- All nine sentinels start with `c`; a region without `c` is never
touched by the sentinel pass and splits off. -/
theorem applySentinels_pre {g : FreshSecrets} {pre : Line} (hpre : ('c' : Char) ∉ pre)
    (rest : Line) :
    applySentinels g (pre ++ rest) = pre ++ applySentinels g rest :=
  foldl_replaceAll_pre hpre _ sentinel_heads rest

theorem not_prefix_of_take_ne {p q t : Line} (n : Nat) (hp : n ≤ p.length)
    (hq : n ≤ q.length) (hne : p.take n ≠ q.take n) : ¬ p <+: q ++ t := by
  intro hc
  have h1 : p = (q ++ t).take p.length := List.prefix_iff_eq_take.mp hc
  have h2 : p.take n = (q ++ t).take n := by
    calc p.take n = ((q ++ t).take p.length).take n := by rw [← h1]
    _ = (q ++ t).take (min n p.length) := List.take_take n p.length _
    _ = (q ++ t).take n := by rw [Nat.min_eq_left hp]
  rw [List.take_append_of_le_length hq] at h2
  exact hne h2

/-- Decompose a line from the hypothesis that its stripped form starts with
`K=`: the line is leading whitespace, then `K`, then `=`, then the rest. -/
theorem pyStrip_starts {K l : Line} (hK : (K ++ [('=' : Char)]) <+: pyStrip l) :
    ∃ ws rest, (∀ c ∈ ws, pySpace c = true) ∧ l = ws ++ K ++ '=' :: rest := by
  have h2 : (K ++ [('=' : Char)]) <+: l.dropWhile pySpace := hK.trans (rstripWS_prefix_self _)
  obtain ⟨rest, hrest⟩ := h2
  refine ⟨l.takeWhile pySpace, rest, fun c hc => mem_takeWhile hc, ?_⟩
  have hl : l = l.takeWhile pySpace ++ ((K ++ [('=' : Char)]) ++ rest) := by
    rw [hrest, List.takeWhile_append_dropWhile]
  have ha : l.takeWhile pySpace ++ ((K ++ [('=' : Char)]) ++ rest)
      = l.takeWhile pySpace ++ K ++ '=' :: rest := by
    simp [List.append_assoc]
  rw [← ha]
  exact hl

theorem pyStrip_key_line {ws K rest : Line} (hws : ∀ c ∈ ws, pySpace c = true)
    (hKne : K ≠ []) (hKsp : ∀ c ∈ K, pySpace c = false) :
    pyStrip (ws ++ (K ++ '=' :: rest)) = K ++ '=' :: rstripWS rest := by
  unfold pyStrip lstripWS
  rw [dropWhile_append_of_all hws]
  obtain ⟨k0, K', rfl⟩ : ∃ k0 K', K = k0 :: K' := by
    cases K with
    | nil => exact absurd rfl hKne
    | cons a b => exact ⟨a, b, rfl⟩
  rw [List.cons_append, List.dropWhile_cons,
    if_neg (by simp [hKsp k0 (List.mem_cons_self k0 K')]), ← List.cons_append]
  have : (k0 :: K') ++ '=' :: rest = ((k0 :: K') ++ [('=' : Char)]) ++ rest := by
    simp [List.append_assoc]
  rw [show ((k0 :: K') ++ '=' :: rest = (k0 :: K') ++ '=' :: rest) from rfl,
    rstripWS_append_stop (by decide)]

theorem ws_no_eq {ws : Line} (hws : ∀ c ∈ ws, pySpace c = true) :
    ∀ c ∈ ws, (c == '=') = false := by
  intro c hc
  have h := hws c hc
  by_contra hb
  have : c = '=' := by simpa using hb
  subst this
  exact absurd h (by decide)

theorem ws_no_c {ws : Line} (hws : ∀ c ∈ ws, pySpace c = true) : ('c' : Char) ∉ ws := by
  intro hm
  exact absurd (hws _ hm) (by decide)

theorem singleton_isPrefixOf_cons {a b : Char} {l : Line} (h : ¬ a = b) :
    ([a]).isPrefixOf (b :: l) = false := by
  simp [List.isPrefixOf, h]

/-- The database-password branch of `create_env_from_template`: any
assignment line whose stripped form starts with `K=`, for `K` one of the
three database-password keys, ends up with exactly the pre-generated
password `pw` for `K` as its value, whatever its original value was. -/
theorem create_env_db {o : Oracle} {t : List Line} {i : Nat} {line K pw : Line}
    (ht : t[i]? = some line)
    (hKne : K ≠ [])
    (hKc : ('c' : Char) ∉ K)
    (hKeq : ∀ c ∈ K, (c == '=') = false)
    (hKsp : ∀ c ∈ K, pySpace c = false)
    (hKhash : ∀ c ∈ K.take 1, ¬ c = '#')
    (hpw : isPassword 20 pw = true)
    (hpre : (K ++ [('=' : Char)]) <+: pyStrip line)
    (hfind : ∀ tail : Line,
      (pgList o.pg).find? (fun p => (p.1 ++ [('=' : Char)]).isPrefixOf (K ++ '=' :: tail))
        = some (K, pw)) :
    Option.map lineValue ((create_env_from_template o t)[i]?) = some pw := by
  obtain ⟨ws, rest, hws, rfl⟩ := pyStrip_starts hpre
  have hpw' := hpw
  unfold isPassword at hpw'
  rw [Bool.and_eq_true] at hpw'
  obtain ⟨hpwlen, hpwall⟩ := hpw'
  have hlen20 : pw.length = 20 := by simpa using hpwlen
  -- the sentinel pass only touches the region after the `=`
  have hsplit : ws ++ K ++ '=' :: rest = (ws ++ (K ++ [('=' : Char)])) ++ rest := by
    simp [List.append_assoc]
  have hcnot : ('c' : Char) ∉ ws ++ (K ++ [('=' : Char)]) := by
    intro hm
    rcases List.mem_append.mp hm with h | h
    · exact ws_no_c hws h
    · rcases List.mem_append.mp h with h' | h'
      · exact hKc h'
      · simp at h'
  have hsent : applySentinels (o.fresh i) (ws ++ K ++ '=' :: rest)
      = (ws ++ (K ++ [('=' : Char)])) ++ applySentinels (o.fresh i) rest := by
    rw [hsplit, applySentinels_pre hcnot]
  set rest' := applySentinels (o.fresh i) rest with hrest'
  have hshape : (ws ++ (K ++ [('=' : Char)])) ++ rest' = ws ++ (K ++ '=' :: rest') := by
    simp [List.append_assoc]
  -- the stripped processed line
  have hstrip : pyStrip (ws ++ (K ++ '=' :: rest')) = K ++ '=' :: rstripWS rest' :=
    pyStrip_key_line hws hKne hKsp
  -- the guard of the assignment branch
  have hcontains : (ws ++ (K ++ '=' :: rest')).contains '=' = true :=
    contains_eq_of_mem (by simp)
  obtain ⟨k0, K', rfl⟩ : ∃ k0 K', K = k0 :: K' := by
    cases K with
    | nil => exact absurd rfl hKne
    | cons a b => exact ⟨a, b, rfl⟩
  have hk0 : ¬ ('#' : Char) = k0 := fun he => hKhash k0 (by simp) he.symm
  have hcmt : (("#").data).isPrefixOf (pyStrip (ws ++ ((k0 :: K') ++ '=' :: rest'))) = false := by
    rw [hstrip]
    exact singleton_isPrefixOf_cons hk0
  have hfound : findPg o.pg (ws ++ ((k0 :: K') ++ '=' :: rest')) = some pw := by
    unfold findPg
    rw [hstrip, hfind (rstripWS rest')]
    rfl
  -- evaluate processLine
  have hkeyval : ∀ c ∈ ws ++ (k0 :: K'), (c == '=') = false := by
    intro c hc
    rcases List.mem_append.mp hc with h | h
    · exact ws_no_eq hws c h
    · exact hKeq c h
  have hproc : processLine o.pg (o.fresh i) (ws ++ (k0 :: K') ++ '=' :: rest)
      = (ws ++ (k0 :: K')) ++ '=' :: (pw ++ ['\n']) := by
    unfold processLine
    rw [hsent, hshape]
    rw [if_pos (by rw [hcontains, hcmt]; rfl)]
    rw [hfound]
    have : ws ++ ((k0 :: K') ++ '=' :: rest') = (ws ++ (k0 :: K')) ++ '=' :: rest' := by
      simp [List.append_assoc]
    rw [this, splitKey_append hkeyval]
  -- non-emptiness of the resulting value
  have hpwne : pw ≠ [] := by
    intro he
    rw [he] at hlen20
    simp at hlen20
  obtain ⟨c0, pw', rfl⟩ : ∃ c0 pw', pw = c0 :: pw' := by
    cases pw with
    | nil => exact absurd rfl hpwne
    | cons a b => exact ⟨a, b, rfl⟩
  have hc0 : isAlnumChar c0 = true := List.all_eq_true.mp hpwall c0 (by simp)
  have hvalne : pyStrip (splitVal ((ws ++ (k0 :: K')) ++ '=' :: ((c0 :: pw') ++ ['\n']))) ≠ [] := by
    rw [splitVal_append hkeyval]
    exact pyStrip_ne_nil_of_mem (alnum_not_space hc0) (by simp)
  -- push through the reconciliation
  have hout : (create_env_from_template o (t))[i]?
      = some ((ws ++ (k0 :: K')) ++ '=' :: ((c0 :: pw') ++ ['\n'])) := by
    unfold create_env_from_template
    apply ensureAdmin_getElem
    · rw [processFrom_getElem, ht]
      simp only [Option.map_some', Nat.zero_add]
      rw [hproc]
    · intro _; exact hvalne
    · intro _; exact hvalne
  rw [hout]
  simp only [Option.map_some', Option.some.injEq]
  unfold lineValue
  rw [splitVal_append hkeyval]
  exact rstripNL_append_newline
    (fun c hc => alnum_ne_newline (List.all_eq_true.mp hpwall c hc))

theorem isPrefixOf_key_self (K tail : Line) :
    ((K ++ [('=' : Char)]).isPrefixOf (K ++ '=' :: tail)) = true :=
  List.isPrefixOf_iff_prefix.mpr ⟨tail, by simp⟩

theorem findPg_key1 (pg : PgPasswords) (tail : Line) :
    (pgList pg).find? (fun p => (p.1 ++ [('=' : Char)]).isPrefixOf
        ((("MLFLOW_POSTGRES_PASSWORD").data) ++ '=' :: tail))
      = some ((("MLFLOW_POSTGRES_PASSWORD").data), pg.mlflow_pg) := by
  have e1 := isPrefixOf_key_self (("MLFLOW_POSTGRES_PASSWORD").data) tail
  unfold pgList
  simp only [List.find?_cons, e1]

theorem findPg_key2 (pg : PgPasswords) (tail : Line) :
    (pgList pg).find? (fun p => (p.1 ++ [('=' : Char)]).isPrefixOf
        ((("MLFLOW_POSTGRES_AUTH_PASSWORD").data) ++ '=' :: tail))
      = some ((("MLFLOW_POSTGRES_AUTH_PASSWORD").data), pg.mlflow_pg_auth) := by
  have htgt : (("MLFLOW_POSTGRES_AUTH_PASSWORD").data) ++ '=' :: tail
      = ((("MLFLOW_POSTGRES_AUTH_PASSWORD").data ++ [('=' : Char)])) ++ tail := by
    simp
  have hneg1 : ¬ (((("MLFLOW_POSTGRES_PASSWORD").data ++ [('=' : Char)]).isPrefixOf
      ((("MLFLOW_POSTGRES_AUTH_PASSWORD").data) ++ '=' :: tail)) = true) := by
    intro hc
    have hc' := List.isPrefixOf_iff_prefix.mp hc
    rw [htgt] at hc'
    exact not_prefix_of_take_ne 17 (by decide) (by decide) (by decide) hc'
  have e1 := Bool.eq_false_iff.mpr hneg1
  have e2 := isPrefixOf_key_self (("MLFLOW_POSTGRES_AUTH_PASSWORD").data) tail
  unfold pgList
  simp only [List.find?_cons, e1, e2]

theorem findPg_key3 (pg : PgPasswords) (tail : Line) :
    (pgList pg).find? (fun p => (p.1 ++ [('=' : Char)]).isPrefixOf
        ((("LANGFUSE_POSTGRES_PASSWORD").data) ++ '=' :: tail))
      = some ((("LANGFUSE_POSTGRES_PASSWORD").data), pg.langfuse_pg) := by
  have htgt : (("LANGFUSE_POSTGRES_PASSWORD").data) ++ '=' :: tail
      = ((("LANGFUSE_POSTGRES_PASSWORD").data ++ [('=' : Char)])) ++ tail := by
    simp
  have hneg1 : ¬ (((("MLFLOW_POSTGRES_PASSWORD").data ++ [('=' : Char)]).isPrefixOf
      ((("LANGFUSE_POSTGRES_PASSWORD").data) ++ '=' :: tail)) = true) := by
    intro hc
    have hc' := List.isPrefixOf_iff_prefix.mp hc
    rw [htgt] at hc'
    exact not_prefix_of_take_ne 1 (by decide) (by decide) (by decide) hc'
  have hneg2 : ¬ (((("MLFLOW_POSTGRES_AUTH_PASSWORD").data ++ [('=' : Char)]).isPrefixOf
      ((("LANGFUSE_POSTGRES_PASSWORD").data) ++ '=' :: tail)) = true) := by
    intro hc
    have hc' := List.isPrefixOf_iff_prefix.mp hc
    rw [htgt] at hc'
    exact not_prefix_of_take_ne 1 (by decide) (by decide) (by decide) hc'
  have e1 := Bool.eq_false_iff.mpr hneg1
  have e2 := Bool.eq_false_iff.mpr hneg2
  have e3 := isPrefixOf_key_self (("LANGFUSE_POSTGRES_PASSWORD").data) tail
  unfold pgList
  simp only [List.find?_cons, e1, e2, e3]

/-- Any line whose stripped form starts with one of the three
database-password keys gets exactly the pre-generated password of that key
as its output value. -/
theorem db_key_value {o : Oracle} {t : List Line} {i : Nat} {line K pw : Line}
    (hwf : o.WF)
    (hK : (K, pw) ∈ pgList o.pg)
    (ht : t[i]? = some line)
    (hpre : ((K ++ [('=' : Char)]).isPrefixOf (pyStrip line)) = true) :
    Option.map lineValue ((create_env_from_template o t)[i]?) = some pw ∧
      isPassword 20 pw = true := by
  obtain ⟨hwf1, hwf2, hwf3, _, _, _⟩ := hwf
  have hpre' := List.isPrefixOf_iff_prefix.mp hpre
  unfold pgList at hK
  rcases List.mem_cons.mp hK with hKc | hK2
  · injection hKc with h1 h2; subst h1; subst h2
    exact ⟨create_env_db ht (by decide) (by decide) (by decide) (by decide) (by decide)
      hwf1 hpre' (findPg_key1 o.pg), hwf1⟩
  rcases List.mem_cons.mp hK2 with hKc | hK3
  · injection hKc with h1 h2; subst h1; subst h2
    exact ⟨create_env_db ht (by decide) (by decide) (by decide) (by decide) (by decide)
      hwf2 hpre' (findPg_key2 o.pg), hwf2⟩
  rcases List.mem_cons.mp hK3 with hKc | hK4
  · injection hKc with h1 h2; subst h1; subst h2
    exact ⟨create_env_db ht (by decide) (by decide) (by decide) (by decide) (by decide)
      hwf3 hpre' (findPg_key3 o.pg), hwf3⟩
  · simp at hK4

/-- Claim C3: for every assignment line whose key is one of the three
database-password keys, regardless of the input value's content (sentinel,
concrete, or anything else), the output value is the freshly generated
20-character `[A-Za-z0-9]` password pre-generated for that key; this
substitution takes precedence over sentinel and bare-default matching. -/
theorem claim_C3 {o : Oracle} {t : List Line} {i : Nat} {line K pw : Line}
    (hwf : o.WF)
    (hK : (K, pw) ∈ pgList o.pg)
    (ht : t[i]? = some line)
    (hpre : ((K ++ [('=' : Char)]).isPrefixOf (pyStrip line)) = true) :
    Option.map lineValue ((create_env_from_template o t)[i]?) = some pw ∧
      isPassword 20 pw = true :=
  db_key_value hwf hK ht hpre

theorem claim_C3_witness :
    Option.map lineValue ((create_env_from_template oracle0
        [("MLFLOW_POSTGRES_PASSWORD=supersecret123\n").data])[0]?)
      = some oracle0.pg.mlflow_pg ∧ isPassword 20 oracle0.pg.mlflow_pg = true :=
  @claim_C3 oracle0 [("MLFLOW_POSTGRES_PASSWORD=supersecret123\n").data] 0
    (("MLFLOW_POSTGRES_PASSWORD=supersecret123\n").data)
    (("MLFLOW_POSTGRES_PASSWORD").data) oracle0.pg.mlflow_pg
    oracle0_WF (by unfold pgList; exact List.mem_cons_self _ _) rfl (by decide)

/-- The line `KEY=change_me_with_a_secure_key` through one loop iteration:
the first sentinel matches, the whole value becomes the fresh secret key of
this iteration, and no later sentinel or bare-default rule fires. -/
theorem processLine_key_sentinel {pg : PgPasswords} {g : FreshSecrets} (hg : g.wf = true) :
    processLine pg g (("KEY=change_me_with_a_secure_key\n").data)
      = ("KEY=").data ++ g.secure_key ++ [('\n' : Char)] := by
  unfold FreshSecrets.wf at hg
  simp only [Bool.and_eq_true] at hg
  have hsk : isHexKey 64 g.secure_key = true := hg.1.1.1.1.1.1.1.1.1.1.1.1.1.1
  unfold isHexKey at hsk
  rw [Bool.and_eq_true] at hsk
  obtain ⟨hsklen', hskall⟩ := hsk
  have hsklen : g.secure_key.length = 64 := by simpa using hsklen'
  -- step 1: the first sentinel replaces in place
  have hline : ("KEY=change_me_with_a_secure_key\n").data
      = ("KEY=").data ++ ("change_me_with_a_secure_key").data ++ [('\n' : Char)] := by decide
  have hstep1 : replaceAll (("KEY=change_me_with_a_secure_key\n").data)
      (("change_me_with_a_secure_key").data) g.secure_key
      = ("KEY=").data ++ g.secure_key ++ [('\n' : Char)] := by
    rw [hline,
      replaceAll_region
        (show (("change_me_with_a_secure_key").data).head? = some 'c' from rfl)
        (show ('c' : Char) ∉ ("KEY=").data by decide),
      replaceAll_absent
        (@absent_of_mem_not_mem 'c' (("change_me_with_a_secure_key").data)
          ['\n'] (by decide) (by decide))]
  -- no later sentinel occurs in the replaced line (they all contain `_`)
  have hacc : ('_' : Char) ∉ ("KEY=").data ++ g.secure_key ++ [('\n' : Char)] := by
    intro hm
    rcases List.mem_append.mp hm with h | h
    · rcases List.mem_append.mp h with h' | h'
      · exact absurd h' (by decide)
      · exact hexLower_not_mem hskall (by decide) h'
    · exact absurd h (by decide)
  have hsent : applySentinels g (("KEY=change_me_with_a_secure_key\n").data)
      = ("KEY=").data ++ g.secure_key ++ [('\n' : Char)] := by
    unfold applySentinels sentinelList
    rw [List.foldl_cons, hstep1]
    apply foldl_replaceAll_id
    intro p hp
    simp only [List.mem_cons, List.not_mem_nil, or_false] at hp
    rcases hp with rfl | rfl | rfl | rfl | rfl | rfl | rfl | rfl <;>
      exact absent_of_mem_not_mem (by simp) hacc
  -- shape of the replaced line as an assignment
  have hshape : ("KEY=").data ++ g.secure_key ++ [('\n' : Char)]
      = ("KEY").data ++ '=' :: (g.secure_key ++ [('\n' : Char)]) := by
    have : (("KEY=").data : Line) = ("KEY").data ++ ['='] := by decide
    rw [this]
    simp [List.append_assoc]
  have hcont : (("KEY").data ++ '=' :: (g.secure_key ++ [('\n' : Char)])).contains '='
      = true := contains_eq_of_mem (by simp)
  have hstripacc : pyStrip (("KEY").data ++ '=' :: (g.secure_key ++ [('\n' : Char)]))
      = ("KEY").data ++ '=' :: rstripWS (g.secure_key ++ [('\n' : Char)]) :=
    @pyStrip_key_line [] (("KEY").data) (g.secure_key ++ [('\n' : Char)])
      (by decide) (by decide) (by decide)
  have hcmt : (("#").data).isPrefixOf
      (pyStrip (("KEY").data ++ '=' :: (g.secure_key ++ [('\n' : Char)]))) = false := by
    rw [hstripacc]
    exact singleton_isPrefixOf_cons (by decide)
  have hnodb : findPg pg (("KEY").data ++ '=' :: (g.secure_key ++ [('\n' : Char)])) = none := by
    apply findPg_eq_none
    intro K hK
    rw [hstripacc]
    simp only [pgKeyNames, List.mem_cons, List.not_mem_nil, or_false] at hK
    rcases hK with rfl | rfl | rfl <;>
      exact @not_prefix_of_take_ne _ (("KEY").data) _ 1 (by decide) (by decide) (by decide)
  have hv0 : rstripNL (splitVal (("KEY").data ++ '=' :: (g.secure_key ++ [('\n' : Char)])))
      = g.secure_key := by
    rw [splitVal_append (by decide : ∀ c ∈ ("KEY").data, (c == '=') = false)]
    exact rstripNL_append_newline (fun c hc => hexLower_ne_newline (List.all_eq_true.mp hskall c hc))
  have hnosub : containsSub (("$\x7b").data) g.secure_key = false :=
    Bool.eq_false_iff.mpr (fun hc =>
      @absent_of_mem_not_mem '$' (("$\x7b").data) g.secure_key (by decide)
        (hexLower_not_mem hskall (by decide)) (containsSub_iff.mp hc))
  have hstripsk : pyStrip g.secure_key = g.secure_key :=
    pyStrip_eq_self (fun c hc => hexLower_not_space (List.all_eq_true.mp hskall c hc))
  have hbare : applyBare (bareList g) g.secure_key = g.secure_key := by
    apply applyBare_no_match
    intro p hp
    simp only [bareList, List.mem_cons, List.not_mem_nil, or_false] at hp
    rcases hp with rfl | rfl | rfl | rfl | rfl | rfl <;>
      exact ⟨by rw [hstripsk]; exact ne_of_length_ne (by rw [hsklen]; simp),
        by rw [hstripsk]; exact ne_of_length_ne (by rw [hsklen]; simp)⟩
  unfold processLine
  rw [hsent, hshape, if_pos (by rw [hcont, hcmt]; rfl), hnodb]
  simp only [hv0, hnosub, Bool.false_eq_true, if_false, hbare,
    splitKey_append (by decide : ∀ c ∈ ("KEY").data, (c == '=') = false)]

theorem wf_secure_key {g : FreshSecrets} (hg : g.wf = true) :
    isHexKey 64 g.secure_key = true := by
  unfold FreshSecrets.wf at hg
  simp only [Bool.and_eq_true] at hg
  exact hg.1.1.1.1.1.1.1.1.1.1.1.1.1.1

/-- The line `KEY=change_me_with_a_secure_key` through the whole run: the
value is replaced by the secret key drawn in iteration `i`, and the
reconciliation stage does not touch the line. -/
theorem create_env_key_sentinel {o : Oracle} {t : List Line} {i : Nat}
    (hwf : o.WF)
    (ht : t[i]? = some (("KEY=change_me_with_a_secure_key\n").data)) :
    (create_env_from_template o t)[i]?
      = some (("KEY=").data ++ (o.fresh i).secure_key ++ [('\n' : Char)]) := by
  have hg : (o.fresh i).wf = true := hwf.2.2.2.1 i
  have hsk := wf_secure_key hg
  unfold isHexKey at hsk
  rw [Bool.and_eq_true] at hsk
  obtain ⟨hlen', hall⟩ := hsk
  have hproc := @processLine_key_sentinel o.pg (o.fresh i) hg
  obtain ⟨c0, sk', hsk0⟩ : ∃ c0 sk', (o.fresh i).secure_key = c0 :: sk' := by
    cases hcase : (o.fresh i).secure_key with
    | nil => rw [hcase] at hlen'; simp at hlen'
    | cons a b => exact ⟨a, b, rfl⟩
  have hkey4 : (("KEY=").data : Line) = ("KEY").data ++ ['='] := by decide
  have hshape : ("KEY=").data ++ (o.fresh i).secure_key ++ [('\n' : Char)]
      = ("KEY").data ++ '=' :: ((o.fresh i).secure_key ++ [('\n' : Char)]) := by
    rw [hkey4]
    simp [List.append_assoc]
  have hvne : pyStrip (splitVal
      (("KEY=").data ++ (o.fresh i).secure_key ++ [('\n' : Char)])) ≠ [] := by
    rw [hshape, splitVal_append (by decide : ∀ c ∈ ("KEY").data, (c == '=') = false)]
    exact pyStrip_ne_nil_of_mem
      (hexLower_not_space (List.all_eq_true.mp hall c0
        (by rw [hsk0]; exact List.mem_cons_self _ _)))
      (by rw [hsk0]; exact List.mem_append.mpr (Or.inl (List.mem_cons_self _ _)))
  unfold create_env_from_template
  apply ensureAdmin_getElem
  · rw [processFrom_getElem, ht]
    simp only [Option.map_some', Nat.zero_add]
    rw [hproc]
  · intro _; exact hvne
  · intro _; exact hvne

/-- Claim C2 counterexample: on the line
`KEY=change_me_langfuse_password change_me_minio_password` the output value
is not a single freshly generated secret for the first matching sentinel —
both sentinels are replaced in place and the rest of the value survives. -/
theorem claim_C2_counterexample :
    Option.map lineValue ((create_env_from_template oracle0
        [("KEY=change_me_langfuse_password change_me_minio_password\n").data])[0]?)
      ≠ some ((oracle0.fresh 0).langfuse_pw) ∧
    Option.map lineValue ((create_env_from_template oracle0
        [("KEY=change_me_langfuse_password change_me_minio_password\n").data])[0]?)
      = some ((oracle0.fresh 0).langfuse_pw ++ ' ' :: (oracle0.fresh 0).minio_pw) := by
  constructor
  · decide
  · decide

/-- Claim C2 (amended): sentinel substrings are replaced in place wherever
they occur, every sentinel in the fixed list is applied (not only the
first); when the value is exactly a sentinel, the whole value becomes the
freshly generated secret of the implied kind — for the key-like sentinel
`change_me_with_a_secure_key`, a 64-character lowercase-hex secret key
drawn in this line's loop iteration. -/
theorem claim_C2 {o : Oracle} {t : List Line} {i : Nat}
    (hwf : o.WF)
    (ht : t[i]? = some (("KEY=change_me_with_a_secure_key\n").data)) :
    (create_env_from_template o t)[i]?
      = some (("KEY=").data ++ (o.fresh i).secure_key ++ [('\n' : Char)]) ∧
    isHexKey 64 ((o.fresh i).secure_key) = true :=
  ⟨create_env_key_sentinel hwf ht, wf_secure_key (hwf.2.2.2.1 i)⟩

theorem claim_C2_witness :
    (create_env_from_template oracle0 [("KEY=change_me_with_a_secure_key\n").data])[0]?
      = some (("KEY=").data ++ (oracle0.fresh 0).secure_key ++ [('\n' : Char)]) ∧
    isHexKey 64 ((oracle0.fresh 0).secure_key) = true :=
  claim_C2 oracle0_WF rfl

def tC10 : List Line :=
  [("MLFLOW_POSTGRES_PASSWORD=a\n").data,
   ("MLFLOW_POSTGRES_PASSWORD=bb\n").data,
   ("KEY=change_me_with_a_secure_key\n").data,
   ("KEY=change_me_with_a_secure_key\n").data]

/-- Claim C10: the three database passwords are generated once before the
line loop, so two lines with the same database-password key receive the
identical value; sentinel secrets are drawn anew in each iteration, so the
same sentinel on two different lines receives the two per-iteration values
and the outputs differ whenever those draws differ. -/
theorem claim_C10 {o : Oracle} {t : List Line} {i j i' j' : Nat} {li lj : Line}
    (hwf : o.WF)
    (hti : t[i]? = some li) (htj : t[j]? = some lj)
    (hpi : ((("MLFLOW_POSTGRES_PASSWORD").data ++ [('=' : Char)]).isPrefixOf (pyStrip li))
      = true)
    (hpj : ((("MLFLOW_POSTGRES_PASSWORD").data ++ [('=' : Char)]).isPrefixOf (pyStrip lj))
      = true)
    (hsi : t[i']? = some (("KEY=change_me_with_a_secure_key\n").data))
    (hsj : t[j']? = some (("KEY=change_me_with_a_secure_key\n").data)) :
    Option.map lineValue ((create_env_from_template o t)[i]?)
      = Option.map lineValue ((create_env_from_template o t)[j]?) ∧
    (create_env_from_template o t)[i']?
      = some (("KEY=").data ++ (o.fresh i').secure_key ++ [('\n' : Char)]) ∧
    (create_env_from_template o t)[j']?
      = some (("KEY=").data ++ (o.fresh j').secure_key ++ [('\n' : Char)]) ∧
    ((o.fresh i').secure_key ≠ (o.fresh j').secure_key →
      (create_env_from_template o t)[i']? ≠ (create_env_from_template o t)[j']?) := by
  have hmem1 : ((("MLFLOW_POSTGRES_PASSWORD").data : Line), o.pg.mlflow_pg) ∈ pgList o.pg := by
    unfold pgList
    exact List.mem_cons_self _ _
  have h1 := (db_key_value hwf hmem1 hti hpi).1
  have h2 := (db_key_value hwf hmem1 htj hpj).1
  have h3 := create_env_key_sentinel hwf hsi
  have h4 := create_env_key_sentinel hwf hsj
  refine ⟨h1.trans h2.symm, h3, h4, ?_⟩
  intro hne hc
  rw [h3, h4] at hc
  injection hc with hc'
  exact hne (List.append_cancel_left (List.append_cancel_right hc'))

theorem claim_C10_witness :
    Option.map lineValue ((create_env_from_template oracle0 tC10)[0]?)
      = Option.map lineValue ((create_env_from_template oracle0 tC10)[1]?) ∧
    (create_env_from_template oracle0 tC10)[2]?
      ≠ (create_env_from_template oracle0 tC10)[3]? := by
  have h := @claim_C10 oracle0 tC10 0 1 2 3
    (("MLFLOW_POSTGRES_PASSWORD=a\n").data) (("MLFLOW_POSTGRES_PASSWORD=bb\n").data)
    oracle0_WF rfl rfl (by decide) (by decide) rfl rfl
  exact ⟨h.1, h.2.2.2 (by decide)⟩

/-- Claim C6: when the output file exists and no assignment line's trimmed
value contains `change_me` or `CHANGEME`, `check_env_file` succeeds and
does not write or modify the file; when some assignment line's value
contains a marker, it triggers a full regeneration from the template,
overwriting the output file. -/
theorem claim_C6 {o : Oracle} (tmpl : Option (List Line)) (env : List Line) :
    (env.all (fun l => !hasStaleMarker l) = true →
      check_env_file o tmpl (some env) = (true, some env)) ∧
    (env.any hasStaleMarker = true →
      check_env_file o tmpl (some env) = runCreateEnv o tmpl (some env)) ∧
    (∀ tl, env.any hasStaleMarker = true → tmpl = some tl →
      check_env_file o tmpl (some env) = (true, some (create_env_from_template o tl))) := by
  refine ⟨?_, ?_, ?_⟩
  · intro h
    have hany : env.any hasStaleMarker = false := by
      rw [← Bool.not_eq_true]
      intro hc
      obtain ⟨x, hx, hpx⟩ := List.any_eq_true.mp hc
      have hax := List.all_eq_true.mp h x hx
      rw [hpx] at hax
      simp at hax
    simp only [check_env_file]
    rw [if_neg (by simp [hany])]
  · intro h
    simp only [check_env_file]
    rw [if_pos h]
  · intro tl h htl
    subst htl
    simp only [check_env_file]
    rw [if_pos h]
    rfl

theorem claim_C6_witness :
    check_env_file oracle0 (some [("X=y\n").data]) (some [("A=b\n").data])
      = (true, some [("A=b\n").data]) ∧
    check_env_file oracle0 (some [("X=y\n").data]) (some [("A=change_me\n").data])
      = (true, some (create_env_from_template oracle0 [("X=y\n").data])) :=
  ⟨(claim_C6 _ _).1 (by decide), (claim_C6 _ _).2.2 _ (by decide) rfl⟩

/-- Claim C7: if generation is required (output absent or stale) and the
template does not exist, the procedure fails and the output file is not
written or modified; every failing invocation leaves the output file
unchanged, and every successful invocation either leaves it unchanged or
writes in one step the complete line list computed from the template. -/
theorem claim_C7 (o : Oracle) (tmpl : Option (List Line)) (env : Option (List Line)) :
    (runCreateEnv o none env = (false, env)) ∧
    (env = none → tmpl = none → check_env_file o tmpl env = (false, none)) ∧
    ((check_env_file o tmpl env).1 = false → (check_env_file o tmpl env).2 = env) ∧
    ((check_env_file o tmpl env).1 = true →
      (check_env_file o tmpl env).2 = env ∨
      ∃ tl, tmpl = some tl ∧ (check_env_file o tmpl env).2
        = some (create_env_from_template o tl)) := by
  refine ⟨rfl, ?_, ?_, ?_⟩
  · rintro rfl rfl
    rfl
  · cases env with
    | none =>
      cases tmpl with
      | none => intro _; rfl
      | some tl => intro h; simp [check_env_file, runCreateEnv] at h
    | some ls =>
      by_cases hA : ls.any hasStaleMarker = true
      · cases tmpl with
        | none =>
          intro _
          simp only [check_env_file]
          rw [if_pos hA]
          rfl
        | some tl =>
          intro h
          simp only [check_env_file] at h
          rw [if_pos hA] at h
          simp [runCreateEnv] at h
      · intro _
        simp only [check_env_file]
        rw [if_neg hA]
  · cases env with
    | none =>
      cases tmpl with
      | none => intro h; simp [check_env_file, runCreateEnv] at h
      | some tl => intro _; exact Or.inr ⟨tl, rfl, rfl⟩
    | some ls =>
      by_cases hA : ls.any hasStaleMarker = true
      · cases tmpl with
        | none =>
          intro h
          simp only [check_env_file] at h
          rw [if_pos hA] at h
          simp [runCreateEnv] at h
        | some tl =>
          intro _
          refine Or.inr ⟨tl, rfl, ?_⟩
          simp only [check_env_file]
          rw [if_pos hA]
          rfl
      · intro _
        left
        simp only [check_env_file]
        rw [if_neg hA]

theorem claim_C7_witness :
    check_env_file oracle0 none none = (false, none) ∧
    ((check_env_file oracle0 (some [("X=y\n").data]) none).2 = none ∨
      ∃ tl, (some [("X=y\n").data] : Option (List Line)) = some tl ∧
        (check_env_file oracle0 (some [("X=y\n").data]) none).2
          = some (create_env_from_template oracle0 tl)) :=
  ⟨(claim_C7 oracle0 none none).2.1 rfl rfl,
   (claim_C7 oracle0 (some [("X=y\n").data]) none).2.2.2 (by decide)⟩

/-! ### Facts about the admin reconciliation -/

theorem user_pass_excl {l : Line} (h : userKey.isPrefixOf l = true) :
    passKey.isPrefixOf l = false := by
  rw [← Bool.not_eq_true]
  intro hc
  have h1 := List.isPrefixOf_iff_prefix.mp h
  have h2 := List.isPrefixOf_iff_prefix.mp hc
  rcases List.prefix_or_prefix_of_prefix h1 h2 with h3 | h3 <;> exact absurd h3 (by decide)

theorem pass_user_excl {l : Line} (h : passKey.isPrefixOf l = true) :
    userKey.isPrefixOf l = false := by
  rw [← Bool.not_eq_true]
  intro hc
  have h1 := user_pass_excl hc
  rw [h] at h1
  simp at h1

theorem fixUserLine_user (l : Line) :
    userKey.isPrefixOf (fixUserLine l) = userKey.isPrefixOf l := by
  unfold fixUserLine
  by_cases h1 : userKey.isPrefixOf l = true
  · rw [if_pos h1, h1]
    by_cases h2 : (pyStrip (splitVal l) == []) = true
    · rw [if_pos h2]; decide
    · rw [if_neg h2]; exact h1
  · rw [if_neg h1]

theorem fixUserLine_pass (l : Line) :
    passKey.isPrefixOf (fixUserLine l) = passKey.isPrefixOf l := by
  unfold fixUserLine
  by_cases h1 : userKey.isPrefixOf l = true
  · rw [if_pos h1, user_pass_excl h1]
    by_cases h2 : (pyStrip (splitVal l) == []) = true
    · rw [if_pos h2]; decide
    · rw [if_neg h2, user_pass_excl h1]
  · rw [if_neg h1]

theorem fixPassLine_user (f : Nat → Line) (i : Nat) (l : Line) :
    userKey.isPrefixOf (fixPassLine f i l) = userKey.isPrefixOf l := by
  unfold fixPassLine
  by_cases h1 : passKey.isPrefixOf l = true
  · rw [if_pos h1, pass_user_excl h1]
    by_cases h2 : (pyStrip (splitVal l) == []) = true
    · rw [if_pos h2]
      rw [← Bool.not_eq_true]
      intro hc
      have hp := List.isPrefixOf_iff_prefix.mp hc
      have h3 : (passKey ++ f i ++ ['\n'] : Line) = passKey ++ (f i ++ ['\n']) := by
        simp [List.append_assoc]
      rw [h3] at hp
      exact @not_prefix_of_take_ne userKey passKey (f i ++ ['\n']) 14
        (by decide) (by decide) (by decide) hp
    · rw [if_neg h2, pass_user_excl h1]
  · rw [if_neg h1]

theorem fixPassLine_pass (f : Nat → Line) (i : Nat) (l : Line) :
    passKey.isPrefixOf (fixPassLine f i l) = passKey.isPrefixOf l := by
  unfold fixPassLine
  by_cases h1 : passKey.isPrefixOf l = true
  · rw [if_pos h1, h1]
    by_cases h2 : (pyStrip (splitVal l) == []) = true
    · rw [if_pos h2]
      rw [show (passKey ++ f i ++ ['\n'] : Line) = passKey ++ (f i ++ ['\n']) from by
        simp [List.append_assoc]]
      exact List.isPrefixOf_iff_prefix.mpr (List.prefix_append _ _)
    · rw [if_neg h2]; exact h1
  · rw [if_neg h1]

theorem password_value_ne_nil {pw : Line} (h : isPassword 20 pw = true) :
    pyStrip (pw ++ [('\n' : Char)]) ≠ [] := by
  unfold isPassword at h
  rw [Bool.and_eq_true] at h
  obtain ⟨hl, hall⟩ := h
  have hlen : pw.length = 20 := by simpa using hl
  obtain ⟨c0, pw', rfl⟩ : ∃ c0 pw', pw = c0 :: pw' := by
    cases pw with
    | nil => simp at hlen
    | cons a b => exact ⟨a, b, rfl⟩
  exact pyStrip_ne_nil_of_mem (alnum_not_space (List.all_eq_true.mp hall c0 (by simp)))
    (by simp)

theorem fixUserLine_value {l : Line} (h : userKey.isPrefixOf l = true) :
    pyStrip (splitVal (fixUserLine l)) ≠ [] := by
  unfold fixUserLine
  rw [if_pos h]
  by_cases h2 : (pyStrip (splitVal l) == []) = true
  · rw [if_pos h2]; decide
  · rw [if_neg h2]; simpa using h2

theorem fixPassLine_value {f : Nat → Line} {i : Nat} {l : Line}
    (hf : isPassword 20 (f i) = true) (h : passKey.isPrefixOf l = true) :
    pyStrip (splitVal (fixPassLine f i l)) ≠ [] := by
  unfold fixPassLine
  rw [if_pos h]
  by_cases h2 : (pyStrip (splitVal l) == []) = true
  · rw [if_pos h2]
    have hsp : (passKey ++ f i ++ ['\n'] : Line)
        = ("MLFLOW_ADMIN_PASSWORD").data ++ '=' :: (f i ++ ['\n']) := by
      rw [show (passKey : Line) = ("MLFLOW_ADMIN_PASSWORD").data ++ ['='] from by decide]
      simp [List.append_assoc]
    rw [hsp,
      splitVal_append (by decide : ∀ c ∈ ("MLFLOW_ADMIN_PASSWORD").data, (c == '=') = false)]
    exact password_value_ne_nil hf
  · rw [if_neg h2]; simpa using h2

theorem fixPassLine_not_pass {f : Nat → Line} {i : Nat} {l : Line}
    (h : passKey.isPrefixOf l = false) : fixPassLine f i l = l := by
  unfold fixPassLine
  rw [if_neg (by simp [h])]

theorem fixUserLine_not_user {l : Line} (h : userKey.isPrefixOf l = false) :
    fixUserLine l = l := by
  unfold fixUserLine
  rw [if_neg (by simp [h])]

theorem user_not_prefix_passline (x : Line) :
    userKey.isPrefixOf (passKey ++ x) = false := by
  rw [← Bool.not_eq_true]
  intro hc
  exact @not_prefix_of_take_ne userKey passKey x 14 (by decide) (by decide) (by decide)
    (List.isPrefixOf_iff_prefix.mp hc)

theorem pass_prefix_passline (x : Line) :
    passKey.isPrefixOf (passKey ++ x) = true :=
  List.isPrefixOf_iff_prefix.mpr (List.prefix_append _ _)

theorem countP_fixPassFrom_user {f : Nat → Line} :
    ∀ {ls : List Line} {k : Nat},
      List.countP (fun l => userKey.isPrefixOf l) (fixPassFrom f k ls)
        = List.countP (fun l => userKey.isPrefixOf l) ls := by
  intro ls
  induction ls with
  | nil => intro k; rfl
  | cons l ls' ih =>
    intro k
    simp only [fixPassFrom, List.countP_cons, ih, fixPassLine_user]

theorem countP_fixPassFrom_pass {f : Nat → Line} :
    ∀ {ls : List Line} {k : Nat},
      List.countP (fun l => passKey.isPrefixOf l) (fixPassFrom f k ls)
        = List.countP (fun l => passKey.isPrefixOf l) ls := by
  intro ls
  induction ls with
  | nil => intro k; rfl
  | cons l ls' ih =>
    intro k
    simp only [fixPassFrom, List.countP_cons, ih, fixPassLine_pass]

theorem countP_map_fixUser_user (ls : List Line) :
    List.countP (fun l => userKey.isPrefixOf l) (ls.map fixUserLine)
      = List.countP (fun l => userKey.isPrefixOf l) ls := by
  induction ls with
  | nil => rfl
  | cons l ls' ih => simp only [List.map_cons, List.countP_cons, ih, fixUserLine_user]

theorem countP_map_fixUser_pass (ls : List Line) :
    List.countP (fun l => passKey.isPrefixOf l) (ls.map fixUserLine)
      = List.countP (fun l => passKey.isPrefixOf l) ls := by
  induction ls with
  | nil => rfl
  | cons l ls' ih => simp only [List.map_cons, List.countP_cons, ih, fixUserLine_pass]

theorem mem_fixPassFrom {f : Nat → Line} :
    ∀ {ls : List Line} {k : Nat} {l : Line}, l ∈ fixPassFrom f k ls →
      ∃ j x, x ∈ ls ∧ l = fixPassLine f j x := by
  intro ls
  induction ls with
  | nil => intro k l h; simp [fixPassFrom] at h
  | cons y ls' ih =>
    intro k l h
    rcases List.mem_cons.mp h with rfl | h'
    · exact ⟨k, y, List.mem_cons_self _ _, rfl⟩
    · obtain ⟨j, x, hx, he⟩ := ih h'
      exact ⟨j, x, List.mem_cons_of_mem _ hx, he⟩

theorem ensureAdmin_count_user (a : Line) (f : Nat → Line) (ls : List Line) :
    List.countP (fun l => userKey.isPrefixOf l) (ensureAdmin a f ls)
      = if ls.any (fun l => userKey.isPrefixOf l) = true
        then List.countP (fun l => userKey.isPrefixOf l) ls
        else List.countP (fun l => userKey.isPrefixOf l) ls + 1 := by
  simp only [ensureAdmin]
  by_cases hU : ls.any (fun l => userKey.isPrefixOf l) = true <;>
  by_cases hP : ls.any (fun l => passKey.isPrefixOf l) = true
  · rw [if_pos hU, if_pos hU, if_pos hP, countP_fixPassFrom_user, countP_map_fixUser_user]
  · rw [if_pos hU, if_pos hU, if_neg hP, List.countP_append, countP_map_fixUser_user]
    have hz : List.countP (fun l => userKey.isPrefixOf l) [passKey ++ a ++ ['\n']] = 0 := by
      simp only [List.countP_cons, List.countP_nil]
      rw [if_neg]
      rw [show (passKey ++ a ++ ['\n'] : Line) = passKey ++ (a ++ ['\n']) from by
        simp [List.append_assoc]]
      simp [user_not_prefix_passline]
    rw [hz]
    omega
  · rw [if_neg hU, if_neg hU, if_pos hP, countP_fixPassFrom_user, List.countP_append]
    have ho : List.countP (fun l => userKey.isPrefixOf l)
        [("MLFLOW_ADMIN_USERNAME=admin\n").data] = 1 := by decide
    rw [ho]
  · rw [if_neg hU, if_neg hU, if_neg hP, List.countP_append, List.countP_append]
    have ho : List.countP (fun l => userKey.isPrefixOf l)
        [("MLFLOW_ADMIN_USERNAME=admin\n").data] = 1 := by decide
    have hz : List.countP (fun l => userKey.isPrefixOf l) [passKey ++ a ++ ['\n']] = 0 := by
      simp only [List.countP_cons, List.countP_nil]
      rw [if_neg]
      rw [show (passKey ++ a ++ ['\n'] : Line) = passKey ++ (a ++ ['\n']) from by
        simp [List.append_assoc]]
      simp [user_not_prefix_passline]
    rw [ho, hz]

theorem ensureAdmin_count_pass (a : Line) (f : Nat → Line) (ls : List Line) :
    List.countP (fun l => passKey.isPrefixOf l) (ensureAdmin a f ls)
      = if ls.any (fun l => passKey.isPrefixOf l) = true
        then List.countP (fun l => passKey.isPrefixOf l) ls
        else List.countP (fun l => passKey.isPrefixOf l) ls + 1 := by
  simp only [ensureAdmin]
  by_cases hU : ls.any (fun l => userKey.isPrefixOf l) = true <;>
  by_cases hP : ls.any (fun l => passKey.isPrefixOf l) = true
  · rw [if_pos hU, if_pos hP, if_pos hP, countP_fixPassFrom_pass, countP_map_fixUser_pass]
  · rw [if_pos hU, if_neg hP, if_neg hP, List.countP_append, countP_map_fixUser_pass]
    have ho : List.countP (fun l => passKey.isPrefixOf l) [passKey ++ a ++ ['\n']] = 1 := by
      simp only [List.countP_cons, List.countP_nil]
      rw [if_pos]
      rw [show (passKey ++ a ++ ['\n'] : Line) = passKey ++ (a ++ ['\n']) from by
        simp [List.append_assoc]]
      simp [pass_prefix_passline]
    rw [ho]
  · rw [if_neg hU, if_pos hP, if_pos hP, countP_fixPassFrom_pass, List.countP_append]
    have hz : List.countP (fun l => passKey.isPrefixOf l)
        [("MLFLOW_ADMIN_USERNAME=admin\n").data] = 0 := by decide
    rw [hz]
    omega
  · rw [if_neg hU, if_neg hP, if_neg hP, List.countP_append, List.countP_append]
    have hz : List.countP (fun l => passKey.isPrefixOf l)
        [("MLFLOW_ADMIN_USERNAME=admin\n").data] = 0 := by decide
    have ho : List.countP (fun l => passKey.isPrefixOf l) [passKey ++ a ++ ['\n']] = 1 := by
      simp only [List.countP_cons, List.countP_nil]
      rw [if_pos]
      rw [show (passKey ++ a ++ ['\n'] : Line) = passKey ++ (a ++ ['\n']) from by
        simp [List.append_assoc]]
      simp [pass_prefix_passline]
    rw [hz, ho]

theorem ensureAdmin_user_value (a : Line) (f : Nat → Line) (ls : List Line) :
    ∀ l ∈ ensureAdmin a f ls, userKey.isPrefixOf l = true →
      pyStrip (splitVal l) ≠ [] := by
  intro l hl hu
  simp only [ensureAdmin] at hl
  by_cases hU : ls.any (fun l => userKey.isPrefixOf l) = true <;>
  by_cases hP : ls.any (fun l => passKey.isPrefixOf l) = true
  · rw [if_pos hU, if_pos hP] at hl
    obtain ⟨j, x, hx, rfl⟩ := mem_fixPassFrom hl
    have hux : userKey.isPrefixOf x = true := by rw [← fixPassLine_user f j x]; exact hu
    rw [fixPassLine_not_pass (user_pass_excl hux)]
    rw [fixPassLine_not_pass (user_pass_excl hux)] at hu
    obtain ⟨y, hy, rfl⟩ := List.mem_map.mp hx
    exact fixUserLine_value (by rw [← fixUserLine_user]; exact hu)
  · rw [if_pos hU, if_neg hP] at hl
    rcases List.mem_append.mp hl with h | h
    · obtain ⟨y, hy, rfl⟩ := List.mem_map.mp h
      exact fixUserLine_value (by rw [← fixUserLine_user]; exact hu)
    · rcases List.mem_cons.mp h with rfl | h'
      · rw [show (passKey ++ a ++ ['\n'] : Line) = passKey ++ (a ++ ['\n']) from by
          simp [List.append_assoc], user_not_prefix_passline] at hu
        simp at hu
      · simp at h'
  · rw [if_neg hU, if_pos hP] at hl
    obtain ⟨j, x, hx, rfl⟩ := mem_fixPassFrom hl
    have hux : userKey.isPrefixOf x = true := by rw [← fixPassLine_user f j x]; exact hu
    rw [fixPassLine_not_pass (user_pass_excl hux)]
    rcases List.mem_append.mp hx with h | h
    · exact absurd (List.any_eq_true.mpr ⟨x, h, hux⟩) (by simp [hU])
    · rcases List.mem_cons.mp h with rfl | h'
      · decide
      · simp at h'
  · rw [if_neg hU, if_neg hP] at hl
    rcases List.mem_append.mp hl with h | h
    · rcases List.mem_append.mp h with h' | h'
      · exact absurd (List.any_eq_true.mpr ⟨l, h', hu⟩) (by simp [hU])
      · rcases List.mem_cons.mp h' with rfl | h''
        · decide
        · simp at h''
    · rcases List.mem_cons.mp h with rfl | h'
      · rw [show (passKey ++ a ++ ['\n'] : Line) = passKey ++ (a ++ ['\n']) from by
          simp [List.append_assoc], user_not_prefix_passline] at hu
        simp at hu
      · simp at h'

theorem ensureAdmin_pass_value (a : Line) (f : Nat → Line) (ls : List Line)
    (ha : isPassword 20 a = true) (hff : ∀ i, isPassword 20 (f i) = true) :
    ∀ l ∈ ensureAdmin a f ls, passKey.isPrefixOf l = true →
      pyStrip (splitVal l) ≠ [] := by
  intro l hl hp
  have happ : pyStrip (splitVal (passKey ++ a ++ ['\n'])) ≠ [] := by
    have hsp : (passKey ++ a ++ ['\n'] : Line)
        = ("MLFLOW_ADMIN_PASSWORD").data ++ '=' :: (a ++ ['\n']) := by
      rw [show (passKey : Line) = ("MLFLOW_ADMIN_PASSWORD").data ++ ['='] from by decide]
      simp [List.append_assoc]
    rw [hsp,
      splitVal_append (by decide : ∀ c ∈ ("MLFLOW_ADMIN_PASSWORD").data, (c == '=') = false)]
    exact password_value_ne_nil ha
  simp only [ensureAdmin] at hl
  by_cases hU : ls.any (fun l => userKey.isPrefixOf l) = true <;>
  by_cases hP : ls.any (fun l => passKey.isPrefixOf l) = true
  · rw [if_pos hU, if_pos hP] at hl
    obtain ⟨j, x, hx, rfl⟩ := mem_fixPassFrom hl
    exact fixPassLine_value (hff j) (by rw [← fixPassLine_pass f j x]; exact hp)
  · rw [if_pos hU, if_neg hP] at hl
    rcases List.mem_append.mp hl with h | h
    · obtain ⟨y, hy, rfl⟩ := List.mem_map.mp h
      have hpy : passKey.isPrefixOf y = true := by rw [← fixUserLine_pass]; exact hp
      exact absurd (List.any_eq_true.mpr ⟨y, hy, hpy⟩) (by simp [hP])
    · rcases List.mem_cons.mp h with rfl | h'
      · exact happ
      · simp at h'
  · rw [if_neg hU, if_pos hP] at hl
    obtain ⟨j, x, hx, rfl⟩ := mem_fixPassFrom hl
    exact fixPassLine_value (hff j) (by rw [← fixPassLine_pass f j x]; exact hp)
  · rw [if_neg hU, if_neg hP] at hl
    rcases List.mem_append.mp hl with h | h
    · rcases List.mem_append.mp h with h' | h'
      · exact absurd (List.any_eq_true.mpr ⟨l, h', hp⟩) (by simp [hP])
      · rcases List.mem_cons.mp h' with rfl | h''
        · exact absurd hp (by decide)
        · simp at h''
    · rcases List.mem_cons.mp h with rfl | h'
      · exact happ
      · simp at h'

theorem ensureAdmin_rewrite_user {a : Line} {f : Nat → Line} {ls : List Line} {i : Nat}
    {l : Line} (h : ls[i]? = some l) (hu : userKey.isPrefixOf l = true)
    (he : pyStrip (splitVal l) = []) :
    (ensureAdmin a f ls)[i]? = some (("MLFLOW_ADMIN_USERNAME=admin\n").data) := by
  have hU : ls.any (fun l => userKey.isPrefixOf l) = true :=
    List.any_eq_true.mpr ⟨l, List.getElem?_mem h, hu⟩
  have hfix : fixUserLine l = ("MLFLOW_ADMIN_USERNAME=admin\n").data := by
    unfold fixUserLine
    rw [if_pos hu, if_pos (by simp [he])]
  have hi : i < ls.length := (List.getElem?_eq_some.mp h).1
  simp only [ensureAdmin]
  rw [if_pos hU]
  by_cases hP : ls.any (fun l => passKey.isPrefixOf l) = true
  · rw [if_pos hP, fixPassFrom_getElem]
    simp only [List.getElem?_map, h, Option.map_some', Nat.zero_add]
    rw [hfix, fixPassLine_not_pass (by decide)]
  · rw [if_neg hP, List.getElem?_append_left (by simpa using hi)]
    simp only [List.getElem?_map, h, Option.map_some']
    rw [hfix]

theorem ensureAdmin_rewrite_pass {a : Line} {f : Nat → Line} {ls : List Line} {i : Nat}
    {l : Line} (h : ls[i]? = some l) (hp : passKey.isPrefixOf l = true)
    (he : pyStrip (splitVal l) = []) :
    (ensureAdmin a f ls)[i]? = some (passKey ++ f i ++ ['\n']) := by
  have hP : ls.any (fun l => passKey.isPrefixOf l) = true :=
    List.any_eq_true.mpr ⟨l, List.getElem?_mem h, hp⟩
  have hi : i < ls.length := (List.getElem?_eq_some.mp h).1
  have hfix : fixPassLine f i l = passKey ++ f i ++ ['\n'] := by
    unfold fixPassLine
    rw [if_pos hp, if_pos (by simp [he])]
  simp only [ensureAdmin]
  rw [if_pos hP]
  by_cases hU : ls.any (fun l => userKey.isPrefixOf l) = true
  · rw [if_pos hU, fixPassFrom_getElem]
    simp only [List.getElem?_map, h, Option.map_some', Nat.zero_add]
    rw [fixUserLine_not_user (pass_user_excl hp), hfix]
  · rw [if_neg hU, fixPassFrom_getElem, List.getElem?_append_left hi, h]
    simp only [Option.map_some', Nat.zero_add]
    rw [hfix]

theorem ensureAdmin_append_both {a : Line} {f : Nat → Line} {ls : List Line}
    (hU : ls.any (fun l => userKey.isPrefixOf l) = false)
    (hP : ls.any (fun l => passKey.isPrefixOf l) = false) :
    ensureAdmin a f ls
      = ls ++ [("MLFLOW_ADMIN_USERNAME=admin\n").data, passKey ++ a ++ ['\n']] := by
  simp only [ensureAdmin]
  rw [if_neg (Bool.eq_false_iff.mp hU), if_neg (Bool.eq_false_iff.mp hP)]
  simp

/-- Claim C4 counterexample: a template with two `MLFLOW_ADMIN_USERNAME=`
lines yields an output with two such lines — the function does not
deduplicate, so "exactly one" fails. -/
theorem claim_C4_counterexample :
    List.countP (fun l => userKey.isPrefixOf l)
      (create_env_from_template oracle0
        [("MLFLOW_ADMIN_USERNAME=a\n").data, ("MLFLOW_ADMIN_USERNAME=b\n").data]) ≠ 1 := by
  decide

/-- Claim C4 (amended): the output contains at least one
`MLFLOW_ADMIN_USERNAME=` and one `MLFLOW_ADMIN_PASSWORD=` line, every such
line has a non-empty (trimmed) value, and there is exactly one of each
whenever the substituted line list contains at most one of each; absent
lines are appended (`admin` / a freshly generated 20-character password),
present-but-empty lines are rewritten in place, and lines with non-empty
values are left unchanged. -/
theorem claim_C4 {o : Oracle} (t : List Line)
    (ha : isPassword 20 o.admin_append = true)
    (hf : ∀ i, isPassword 20 (o.admin_fill i) = true) :
    (∀ l ∈ create_env_from_template o t, userKey.isPrefixOf l = true →
      pyStrip (splitVal l) ≠ []) ∧
    (∀ l ∈ create_env_from_template o t, passKey.isPrefixOf l = true →
      pyStrip (splitVal l) ≠ []) ∧
    (0 < List.countP (fun l => userKey.isPrefixOf l) (create_env_from_template o t)) ∧
    (0 < List.countP (fun l => passKey.isPrefixOf l) (create_env_from_template o t)) ∧
    (List.countP (fun l => userKey.isPrefixOf l) (processFrom o.pg o.fresh 0 t) ≤ 1 →
      List.countP (fun l => userKey.isPrefixOf l) (create_env_from_template o t) = 1) ∧
    (List.countP (fun l => passKey.isPrefixOf l) (processFrom o.pg o.fresh 0 t) ≤ 1 →
      List.countP (fun l => passKey.isPrefixOf l) (create_env_from_template o t) = 1) ∧
    ((processFrom o.pg o.fresh 0 t).any (fun l => userKey.isPrefixOf l) = false →
      (processFrom o.pg o.fresh 0 t).any (fun l => passKey.isPrefixOf l) = false →
      create_env_from_template o t = processFrom o.pg o.fresh 0 t
        ++ [("MLFLOW_ADMIN_USERNAME=admin\n").data,
            passKey ++ o.admin_append ++ ['\n']]) ∧
    (∀ (i : Nat) (l : Line), (processFrom o.pg o.fresh 0 t)[i]? = some l →
      userKey.isPrefixOf l = true → pyStrip (splitVal l) = [] →
      (create_env_from_template o t)[i]?
        = some (("MLFLOW_ADMIN_USERNAME=admin\n").data)) ∧
    (∀ (i : Nat) (l : Line), (processFrom o.pg o.fresh 0 t)[i]? = some l →
      passKey.isPrefixOf l = true → pyStrip (splitVal l) = [] →
      (create_env_from_template o t)[i]?
        = some (passKey ++ o.admin_fill i ++ ['\n'])) ∧
    (∀ (i : Nat) (l : Line), (processFrom o.pg o.fresh 0 t)[i]? = some l →
      pyStrip (splitVal l) ≠ [] →
      (create_env_from_template o t)[i]? = some l) := by
  have hout : create_env_from_template o t
      = ensureAdmin o.admin_append o.admin_fill (processFrom o.pg o.fresh 0 t) := rfl
  refine ⟨?_, ?_, ?_, ?_, ?_, ?_, ?_, ?_, ?_, ?_⟩
  · rw [hout]
    exact ensureAdmin_user_value _ _ _
  · rw [hout]
    exact ensureAdmin_pass_value _ _ _ ha hf
  · rw [hout, ensureAdmin_count_user]
    by_cases hU : (processFrom o.pg o.fresh 0 t).any (fun l => userKey.isPrefixOf l) = true
    · rw [if_pos hU]
      exact List.countP_pos_iff.mpr (List.any_eq_true.mp hU)
    · rw [if_neg hU]
      omega
  · rw [hout, ensureAdmin_count_pass]
    by_cases hP : (processFrom o.pg o.fresh 0 t).any (fun l => passKey.isPrefixOf l) = true
    · rw [if_pos hP]
      exact List.countP_pos_iff.mpr (List.any_eq_true.mp hP)
    · rw [if_neg hP]
      omega
  · intro hle
    rw [hout, ensureAdmin_count_user]
    by_cases hU : (processFrom o.pg o.fresh 0 t).any (fun l => userKey.isPrefixOf l) = true
    · rw [if_pos hU]
      have hpos := List.countP_pos_iff.mpr (List.any_eq_true.mp hU)
      exact Nat.le_antisymm hle hpos
    · rw [if_neg hU]
      have h0 : List.countP (fun l => userKey.isPrefixOf l)
          (processFrom o.pg o.fresh 0 t) = 0 :=
        List.countP_eq_zero.mpr
          (fun x hx hpx => absurd (List.any_eq_true.mpr ⟨x, hx, hpx⟩) hU)
      rw [h0]
  · intro hle
    rw [hout, ensureAdmin_count_pass]
    by_cases hP : (processFrom o.pg o.fresh 0 t).any (fun l => passKey.isPrefixOf l) = true
    · rw [if_pos hP]
      have hpos := List.countP_pos_iff.mpr (List.any_eq_true.mp hP)
      exact Nat.le_antisymm hle hpos
    · rw [if_neg hP]
      have h0 : List.countP (fun l => passKey.isPrefixOf l)
          (processFrom o.pg o.fresh 0 t) = 0 :=
        List.countP_eq_zero.mpr
          (fun x hx hpx => absurd (List.any_eq_true.mpr ⟨x, hx, hpx⟩) hP)
      rw [h0]
  · intro h1 h2
    rw [hout]
    exact ensureAdmin_append_both h1 h2
  · intro i l hPi hu he
    rw [hout]
    exact ensureAdmin_rewrite_user hPi hu he
  · intro i l hPi hp he
    rw [hout]
    exact ensureAdmin_rewrite_pass hPi hp he
  · intro i l hPi hne
    rw [hout]
    exact ensureAdmin_getElem hPi (fun _ => hne) (fun _ => hne)

theorem claim_C4_witness :
    create_env_from_template oracle0 [("A=b\n").data]
      = processFrom oracle0.pg oracle0.fresh 0 [("A=b\n").data]
        ++ [("MLFLOW_ADMIN_USERNAME=admin\n").data,
            passKey ++ oracle0.admin_append ++ ['\n']] ∧
    List.countP (fun l => userKey.isPrefixOf l)
      (create_env_from_template oracle0 [("A=b\n").data]) = 1 := by
  have h := @claim_C4 oracle0 [("A=b\n").data] oracle0_WF.2.2.2.2.1 oracle0_WF.2.2.2.2.2
  exact ⟨h.2.2.2.2.2.2.1 (by decide) (by decide), h.2.2.2.2.1 (by decide)⟩

/-! ### Lines the pipeline leaves unchanged -/

theorem bareList_fst {g : FreshSecrets} {p : Line × Line} (hp : p ∈ bareList g) :
    p.1 ∈ bareNames := by
  simp only [bareList, List.mem_cons, List.not_mem_nil, or_false] at hp
  rcases hp with rfl | rfl | rfl | rfl | rfl | rfl <;> simp [bareNames]

/-- The assignment branch of the loop on a line without sentinels, whose
key is not a database-password key. -/
theorem processLine_plain {pg : PgPasswords} {g : FreshSecrets} {line : Line}
    (hse : ∀ pat ∈ sentinelNames, ¬ pat <:+: line)
    (heq : '=' ∈ line)
    (hcmt : ¬ (("#").data <+: pyStrip line))
    (hnodb : ∀ K ∈ pgKeyNames, ¬ (K ++ [('=' : Char)]) <+: pyStrip line) :
    processLine pg g line
      = splitKey line ++ '=' ::
        ((if containsSub (("$\x7b").data) (rstripNL (splitVal line))
          then rstripNL (splitVal line)
          else applyBare (bareList g) (rstripNL (splitVal line))) ++ ['\n']) := by
  have hcmt' : (("#").data).isPrefixOf (pyStrip line) = false :=
    Bool.eq_false_iff.mpr (fun hc => hcmt (List.isPrefixOf_iff_prefix.mp hc))
  unfold processLine
  rw [applySentinels_of_no_sentinel hse,
    if_pos (by rw [contains_eq_of_mem heq, hcmt']; rfl), findPg_eq_none hnodb]

/-- A line whose loop iteration is the identity survives the whole run
unchanged at its index, provided its value is non-empty whenever its key is
one of the two admin keys. -/
theorem create_env_preserve {o : Oracle} {t : List Line} {i : Nat} {line : Line}
    (ht : t[i]? = some line)
    (hproc : processLine o.pg (o.fresh i) line = line)
    (hu : userKey.isPrefixOf line = true → pyStrip (splitVal line) ≠ [])
    (hp : passKey.isPrefixOf line = true → pyStrip (splitVal line) ≠ []) :
    (create_env_from_template o t)[i]? = some line := by
  unfold create_env_from_template
  apply ensureAdmin_getElem _ hu hp
  rw [processFrom_getElem, ht]
  simp only [Option.map_some', Nat.zero_add]
  rw [hproc]

theorem rstripNL_prefix_self (l : Line) : rstripNL l <+: l := by
  have h1 : l.reverse.dropWhile (fun c => c == '\n') <:+ l.reverse := List.dropWhile_suffix _
  have h2 := List.reverse_prefix.mpr h1
  simpa [rstripNL] using h2

/-- Claim C1 counterexample: the line
`FOO=${VAR:-change_me_on_first_login}` contains `${`, yet its output line
differs from the input — the sentinel inside the braces is replaced. -/
theorem claim_C1_counterexample :
    (create_env_from_template oracle0
        [("FOO=$\x7bVAR:-change_me_on_first_login\x7d\n").data])[0]?
      ≠ some (("FOO=$\x7bVAR:-change_me_on_first_login\x7d\n").data) := by
  decide

/-- Claim C1 (amended): an assignment line whose value contains `${` is
passed through byte-for-byte — provided the line contains no sentinel
substring and its key is not a database-password key (both of those
substitutions still fire even when `${` is present), and the line is
newline-terminated.  The bare-default substitution is indeed never applied
to it. -/
theorem claim_C1 {o : Oracle} {t : List Line} {i : Nat} {line : Line}
    (ht : t[i]? = some line)
    (hse : ∀ pat ∈ sentinelNames, ¬ pat <:+: line)
    (heq : '=' ∈ line)
    (hcmt : ¬ (("#").data <+: pyStrip line))
    (hnodb : ∀ K ∈ pgKeyNames, ¬ (K ++ [('=' : Char)]) <+: pyStrip line)
    (hsub : (("$\x7b").data) <:+: rstripNL (splitVal line))
    (hnl : splitVal line = rstripNL (splitVal line) ++ [('\n' : Char)]) :
    (create_env_from_template o t)[i]? = some line := by
  have hvne : pyStrip (splitVal line) ≠ [] := by
    have hd : ('$' : Char) ∈ rstripNL (splitVal line) :=
      hsub.sublist.subset (by decide)
    exact pyStrip_ne_nil_of_mem (by decide)
      ((rstripNL_prefix_self (splitVal line)).subset hd)
  apply create_env_preserve ht _ (fun _ => hvne) (fun _ => hvne)
  rw [processLine_plain hse heq hcmt hnodb,
    if_pos (containsSub_iff.mpr hsub), ← hnl]
  exact splitKey_splitVal heq

theorem claim_C1_witness :
    (create_env_from_template oracle0 [("FOO=$\x7bHOME\x7d\n").data])[0]?
      = some (("FOO=$\x7bHOME\x7d\n").data) :=
  claim_C1 rfl (by decide) (by decide) (by decide) (by decide) (by decide) (by decide)

/-- Claim C5 counterexample: a comment line containing a sentinel substring
is not passed through unchanged — the sentinel is replaced even inside
comments. -/
theorem claim_C5_counterexample :
    (create_env_from_template oracle0 [("# change_me_minio_password\n").data])[0]?
      ≠ some (("# change_me_minio_password\n").data) := by
  decide

/-- Claim C5 (amended): a comment line (beginning with `#`) is passed
through byte-for-byte provided it contains no sentinel substring; a
sentinel occurring inside a comment is replaced in place. -/
theorem claim_C5 {o : Oracle} {t : List Line} {i : Nat} {line : Line}
    (ht : t[i]? = some line)
    (hhash : (("#").data).isPrefixOf line = true)
    (hse : ∀ pat ∈ sentinelNames, ¬ pat <:+: line) :
    (create_env_from_template o t)[i]? = some line := by
  obtain ⟨rest, hrest⟩ := List.isPrefixOf_iff_prefix.mp hhash
  have hline : line = '#' :: rest := by rw [← hrest]; rfl
  have hstrip : (("#").data).isPrefixOf (pyStrip line) = true := by
    rw [hline]
    unfold pyStrip lstripWS
    rw [List.dropWhile_cons, if_neg (by decide)]
    rw [show ('#' :: rest : Line) = [] ++ '#' :: rest from rfl, rstripWS_append_stop (by decide)]
    exact List.isPrefixOf_iff_prefix.mpr ⟨rstripWS rest, rfl⟩
  have hnu : userKey.isPrefixOf line = false := by
    rw [hline, ← Bool.not_eq_true]
    intro hc
    exact @not_prefix_of_take_ne userKey ['#'] rest 1 (by decide) (by decide) (by decide)
      (List.isPrefixOf_iff_prefix.mp hc)
  have hnp : passKey.isPrefixOf line = false := by
    rw [hline, ← Bool.not_eq_true]
    intro hc
    exact @not_prefix_of_take_ne passKey ['#'] rest 1 (by decide) (by decide) (by decide)
      (List.isPrefixOf_iff_prefix.mp hc)
  apply create_env_preserve ht _ (fun hc => absurd hc (by simp [hnu]))
    (fun hc => absurd hc (by simp [hnp]))
  unfold processLine
  rw [applySentinels_of_no_sentinel hse,
    if_neg (by rw [hstrip]; simp)]

theorem claim_C5_witness :
    (create_env_from_template oracle0 [("# a comment with FOO=bar\n").data])[0]?
      = some (("# a comment with FOO=bar\n").data) :=
  claim_C5 rfl (by decide) (by decide)

/-- Claim C9 counterexample: the line `MLFLOW_POSTGRES_PASSWORD=alreadySet123`
contains no sentinel, no bare-default token and no `${`, yet it is not
returned unchanged — the database-password branch rewrites it. -/
theorem claim_C9_counterexample :
    (create_env_from_template oracle0
        [("MLFLOW_POSTGRES_PASSWORD=alreadySet123\n").data])[0]?
      ≠ some (("MLFLOW_POSTGRES_PASSWORD=alreadySet123\n").data) := by
  decide

/-- Claim C9 (amended): an assignment line containing no sentinel substring,
no `${` in its value, whose trimmed value is none of the bare-default
tokens (plain or dash-prefixed), whose key is not one of the three
database-password keys, whose value is non-empty if its key is one of the
two admin keys, and which is newline-terminated, is returned unchanged. -/
theorem claim_C9 {o : Oracle} {t : List Line} {i : Nat} {line : Line}
    (ht : t[i]? = some line)
    (hse : ∀ pat ∈ sentinelNames, ¬ pat <:+: line)
    (heq : '=' ∈ line)
    (hcmt : ¬ (("#").data <+: pyStrip line))
    (hnodb : ∀ K ∈ pgKeyNames, ¬ (K ++ [('=' : Char)]) <+: pyStrip line)
    (hnosub : ¬ (("$\x7b").data) <:+: rstripNL (splitVal line))
    (hbare : ∀ tok ∈ bareNames, pyStrip (rstripNL (splitVal line)) ≠ tok ∧
      pyStrip (rstripNL (splitVal line)) ≠ '-' :: tok)
    (hnl : splitVal line = rstripNL (splitVal line) ++ [('\n' : Char)])
    (hu : userKey.isPrefixOf line = true → pyStrip (splitVal line) ≠ [])
    (hp : passKey.isPrefixOf line = true → pyStrip (splitVal line) ≠ []) :
    (create_env_from_template o t)[i]? = some line := by
  apply create_env_preserve ht _ hu hp
  rw [processLine_plain hse heq hcmt hnodb,
    if_neg (by rw [Bool.eq_false_iff.mpr (fun hc => hnosub (containsSub_iff.mp hc))]; simp),
    applyBare_no_match _ (fun p hp' => hbare p.1 (bareList_fst hp')), ← hnl]
  exact splitKey_splitVal heq

theorem claim_C9_witness :
    (create_env_from_template oracle0 [("FOO=bar\n").data])[0]?
      = some (("FOO=bar\n").data) :=
  claim_C9 rfl (by decide) (by decide) (by decide) (by decide) (by decide) (by decide)
    (by decide) (by decide) (by decide)

theorem wf_postgres_v {g : FreshSecrets} (hg : g.wf = true) :
    isPassword 20 g.postgres_v = true := by
  unfold FreshSecrets.wf at hg
  simp only [Bool.and_eq_true] at hg
  exact hg.2

/-- Claim C8 counterexample: the line `MLFLOW_POSTGRES_PASSWORD=-postgres`
has the bare default `-postgres` as its trimmed value, yet the output value
does not keep the leading dash — the database-password branch takes
precedence and replaces the whole value. -/
theorem claim_C8_counterexample :
    Option.map (fun l => (lineValue l).head?)
      ((create_env_from_template oracle0
        [("MLFLOW_POSTGRES_PASSWORD=-postgres\n").data])[0]?)
      ≠ some (some '-') := by
  decide

/-- Claim C8 (amended): for an assignment line whose key is not one of the
three database-password keys (and which contains no sentinel), whose value
does not contain `${` and whose trimmed value equals the bare-default token
`postgres` or `-postgres`, the whole value is replaced by the freshly
generated 20-character password of this iteration, with the leading `-`
preserved exactly when present. -/
theorem claim_C8 {o : Oracle} {t : List Line} {i : Nat} {line : Line}
    (hwf : o.WF)
    (ht : t[i]? = some line)
    (hse : ∀ pat ∈ sentinelNames, ¬ pat <:+: line)
    (heq : '=' ∈ line)
    (hcmt : ¬ (("#").data <+: pyStrip line))
    (hnodb : ∀ K ∈ pgKeyNames, ¬ (K ++ [('=' : Char)]) <+: pyStrip line)
    (hnosub : ¬ (("$\x7b").data) <:+: rstripNL (splitVal line)) :
    (pyStrip (rstripNL (splitVal line)) = ("postgres").data →
      Option.map lineValue ((create_env_from_template o t)[i]?)
        = some ((o.fresh i).postgres_v)) ∧
    (pyStrip (rstripNL (splitVal line)) = '-' :: ("postgres").data →
      Option.map lineValue ((create_env_from_template o t)[i]?)
        = some ('-' :: (o.fresh i).postgres_v)) ∧
    isPassword 20 ((o.fresh i).postgres_v) = true := by
  have hg := hwf.2.2.2.1 i
  have hpv := wf_postgres_v hg
  have hpv' := hpv
  unfold isPassword at hpv'
  rw [Bool.and_eq_true] at hpv'
  obtain ⟨hpl, hpall⟩ := hpv'
  have hnosub' : containsSub (("$\x7b").data) (rstripNL (splitVal line)) = false :=
    Bool.eq_false_iff.mpr (fun hc => hnosub (containsSub_iff.mp hc))
  refine ⟨?_, ?_, hpv⟩
  · intro htok
    have happ : applyBare (bareList (o.fresh i)) (rstripNL (splitVal line))
        = (o.fresh i).postgres_v := by
      simp only [bareList, applyBare, htok]
      rw [if_neg (by decide), if_neg (by decide), if_neg (by decide), if_neg (by decide),
        if_neg (by decide), if_neg (by decide), if_neg (by decide), if_neg (by decide),
        if_neg (by decide), if_neg (by decide), if_pos (by decide)]
    have hproc : processLine o.pg (o.fresh i) line
        = splitKey line ++ '=' :: ((o.fresh i).postgres_v ++ ['\n']) := by
      rw [processLine_plain hse heq hcmt hnodb, if_neg (by rw [hnosub']; simp), happ]
    have hval : splitVal (splitKey line ++ '=' :: ((o.fresh i).postgres_v ++ ['\n']))
        = (o.fresh i).postgres_v ++ ['\n'] := splitVal_append splitKey_no_eq
    have hne : pyStrip (splitVal
        (splitKey line ++ '=' :: ((o.fresh i).postgres_v ++ ['\n']))) ≠ [] := by
      rw [hval]
      exact password_value_ne_nil hpv
    have hout : (create_env_from_template o t)[i]?
        = some (splitKey line ++ '=' :: ((o.fresh i).postgres_v ++ ['\n'])) := by
      unfold create_env_from_template
      apply ensureAdmin_getElem _ (fun _ => hne) (fun _ => hne)
      rw [processFrom_getElem, ht]
      simp only [Option.map_some', Nat.zero_add]
      rw [hproc]
    rw [hout]
    simp only [Option.map_some', Option.some.injEq]
    unfold lineValue
    rw [hval]
    exact rstripNL_append_newline
      (fun c hc => alnum_ne_newline (List.all_eq_true.mp hpall c hc))
  · intro htok
    have happ : applyBare (bareList (o.fresh i)) (rstripNL (splitVal line))
        = '-' :: (o.fresh i).postgres_v := by
      simp only [bareList, applyBare, htok]
      rw [if_neg (by decide), if_neg (by decide), if_neg (by decide), if_neg (by decide),
        if_neg (by decide), if_neg (by decide), if_neg (by decide), if_neg (by decide),
        if_neg (by decide), if_neg (by decide), if_neg (by decide), if_pos (by decide)]
    have hproc : processLine o.pg (o.fresh i) line
        = splitKey line ++ '=' :: (('-' :: (o.fresh i).postgres_v) ++ ['\n']) := by
      rw [processLine_plain hse heq hcmt hnodb, if_neg (by rw [hnosub']; simp), happ]
    have hval : splitVal (splitKey line ++ '=' :: (('-' :: (o.fresh i).postgres_v) ++ ['\n']))
        = ('-' :: (o.fresh i).postgres_v) ++ ['\n'] := splitVal_append splitKey_no_eq
    have hne : pyStrip (splitVal
        (splitKey line ++ '=' :: (('-' :: (o.fresh i).postgres_v) ++ ['\n']))) ≠ [] := by
      rw [hval]
      exact @pyStrip_ne_nil_of_mem '-' (('-' :: (o.fresh i).postgres_v) ++ ['\n'])
        (by decide) (by simp)
    have hout : (create_env_from_template o t)[i]?
        = some (splitKey line ++ '=' :: (('-' :: (o.fresh i).postgres_v) ++ ['\n'])) := by
      unfold create_env_from_template
      apply ensureAdmin_getElem _ (fun _ => hne) (fun _ => hne)
      rw [processFrom_getElem, ht]
      simp only [Option.map_some', Nat.zero_add]
      rw [hproc]
    rw [hout]
    simp only [Option.map_some', Option.some.injEq]
    unfold lineValue
    rw [hval]
    apply rstripNL_append_newline
    intro c hc
    rcases List.mem_cons.mp hc with rfl | hc'
    · decide
    · exact alnum_ne_newline (List.all_eq_true.mp hpall c hc')

theorem claim_C8_witness :
    Option.map lineValue ((create_env_from_template oracle0
        [("SOME_DB=-postgres\n").data])[0]?)
      = some ('-' :: (oracle0.fresh 0).postgres_v) ∧
    Option.map lineValue ((create_env_from_template oracle0
        [("SOME_DB=postgres\n").data])[0]?)
      = some ((oracle0.fresh 0).postgres_v) :=
  ⟨(claim_C8 oracle0_WF rfl (by decide) (by decide) (by decide) (by decide)
      (by decide)).2.1 (by decide),
   (claim_C8 oracle0_WF rfl (by decide) (by decide) (by decide) (by decide)
      (by decide)).1 (by decide)⟩

example : replaceAll (("KEY=change_me_on_first_login\n").data)
    (("change_me_on_first_login").data) (("xy").data) = ("KEY=xy\n").data := by decide

example : pyStrip (("  MLFLOW_POSTGRES_PASSWORD=x \n").data)
    = ("MLFLOW_POSTGRES_PASSWORD=x").data := by decide
